import Mathlib

/-!
# Verification of the yalc core (`src/add.ts`: `addPackages`, `publishPackage`)

A shallow embedding of the two source files of this repository: the add/link
engine (`addPackages`) and the publish engine (`publishPackage`, with its inner
`publishDepthFirst` and `publish` functions).  File-system reads, script
execution and the other I/O wrappers declared external collaborators by the
design document are modelled as explicit environment records of pure functions;
every mutation the code performs is recorded either in an explicit state value
(the consumer manifest, the store) or as an event in an ordered trace.

JavaScript specifics that matter here and are modelled faithfully:
* object fields may be absent (`Option`), and `x || {}` produces a *fresh*
  object when the field is absent, so mutations of it are not seen by the
  owner record;
* string truthiness: the empty string is falsy;
* `publishDepthFirst` is general recursion bounded by a growing visited set;
  it is embedded with an explicit fuel parameter (the call stack depth), and
  a theorem shows fuel `|package names| + 1` never runs out.
-/

namespace Yalc

/-! ## Association lists modelling JavaScript objects (insertion ordered) -/

/-- Lookup of a key in a JS-object-like association list. -/
def alookup (l : List (String × String)) (k : String) : Option String :=
  (l.find? (fun p => p.1 == k)).map (·.2)

/-- `obj[k] = v`: update in place if present, else append (JS key order). -/
def aset (l : List (String × String)) (k v : String) : List (String × String) :=
  if (l.find? (fun p => p.1 == k)).isSome then
    l.map (fun p => if p.1 == k then (k, v) else p)
  else l ++ [(k, v)]

/-- `delete obj[k]`. -/
def adel (l : List (String × String)) (k : String) : List (String × String) :=
  l.filter (fun p => p.1 != k)

/-- JS truthiness of `obj[k]` for string-valued objects: present and non-empty. -/
def truthy (l : List (String × String)) (k : String) : Bool :=
  (alookup l k).getD "" != ""

/-- Key membership (the key is present, whatever its value). -/
def hasKey (l : List (String × String)) (k : String) : Bool :=
  (l.find? (fun p => p.1 == k)).isSome

/-! ## Data model -/

/-- The `bin` manifest field: absent, a single path, or a name → path map. -/
inductive BinField where
  | nothing
  | single (path : String)
  | many (entries : List (String × String))
deriving DecidableEq, Repr

/-- A package manifest (`package.json`), fields as consumed by `src/add.ts`.
`privateFlag` embeds the manifest's `private` field (a Lean keyword). -/
structure PackageManifest where
  name : String
  version : String
  dependencies : Option (List (String × String)) := Option.none
  devDependencies : Option (List (String × String)) := Option.none
  scripts : Option (List (String × String)) := Option.none
  bin : BinField := BinField.nothing
  workspaces : Bool := false
  privateFlag : Bool := false
deriving DecidableEq, Repr

/-- One record of `addPackageToLockfile` (src/lockfile.ts), with the flags
exactly as built at the end of `addPackages`. -/
structure LockfileEntry where
  name : String
  version : String
  replaced : String
  pure : Bool
  file : Bool
  link : Bool
  signature : String
deriving DecidableEq, Repr

/-- The element returned for each added package (`addedInstalls` entries). -/
structure InstallResult where
  signature : String
  name : String
  version : String
  replaced : String
  path : String
deriving DecidableEq, Repr

/-! ## Path helpers (index.ts externals, modelled as plain string paths) -/

/-- `path.join` restricted to the forward-slash form used throughout. -/
def joinPath (a b : String) : String := a ++ "/" ++ b

/-- `values.yalcPackagesFolder` from index.ts. -/
def yalcPackagesFolder : String := ".yalc"

/-- `getPackageStoreDir(name)` (index.ts, external): the store path of a
package name.  The store root location is irrelevant to the claims; a fixed
prefix stands for it. -/
def getPackageStoreDir (name : String) : String :=
  "~/.yalc/packages/" ++ name

/-- `getPackageStoreDir(name, version)`: the store path of one version. -/
def getPackageStoreVersionDir (name version : String) : String :=
  joinPath (getPackageStoreDir name) version

/-! ## The add/link engine: `addPackages` -/

/-- `AddPackagesOptions` of src/add.ts, verbatim fields.  `pure` is tri-state
(`undefined` / `true` / `false`) because the code distinguishes
`options.pure === false` from `options.pure` being undefined. -/
structure AddPackagesOptions where
  dev : Bool := false
  link : Bool := false
  linkDep : Bool := false
  yarn : Bool := false
  safe : Bool := false
  pure : Option Bool := Option.none
  workingDir : String
deriving DecidableEq, Repr

/-- The external collaborators `addPackages` calls, as pure functions over
path strings: `findPackage`, `readPackage`, `parsePackageName`,
`fs.existsSync`, `readSignatureFile` (index.ts) and the `fs.readdirSync`
based `getLatestPackageVersion`. -/
structure AddEnv where
  findPackage : String → Option String
  readPackage : String → Option PackageManifest
  parsePackageName : String → String × String
  existsSync : String → Bool
  readSignatureFile : String → String
  latestVersion : String → String

/-- File-system mutations performed by the non-pure branch of `addPackages`,
in order of occurrence. -/
inductive AEv where
  /-- `fs.removeSync(localPackageDir)` + `fs.copySync(storedPackageDir, …)`. -/
  | replaceStaging (name : String)
  /-- `fs.removeSync(nodeModulesDest)` then symlink (`link: true`) or copy. -/
  | replaceNodeModules (name : String) (link : Bool)
  /-- One `ensureSymlinkSync` + `chmodSync` in `node_modules/.bin`. -/
  | binLink (src dest : String)
  /-- `execSync('yarn', …)` when `options.yarn` is set. -/
  | runYarn
deriving DecidableEq, Repr

/-- The `.bin` symlinks created for the `pkg.bin` field. -/
def binEvents (pkg : PackageManifest) (localPackageDir workingDir : String) : List AEv :=
  let binDir := joinPath (joinPath workingDir "node_modules") ".bin"
  match pkg.bin with
  | BinField.nothing => []
  | BinField.single p =>
      [AEv.binLink (joinPath localPackageDir p) (joinPath binDir pkg.name)]
  | BinField.many es =>
      es.map (fun e => AEv.binLink (joinPath localPackageDir e.2) (joinPath binDir e.1))

/-- The state threaded through the `packages.map(…)` closure of `addPackages`:
the live consumer manifest object, the `localPkgUpdated` flag, the collected
`addedInstalls`, and the file-system mutations so far. -/
structure AddState where
  manifest : PackageManifest
  updated : Bool
  installs : List InstallResult
  events : List AEv
deriving DecidableEq, Repr

/-- `doPure` as computed at the top of `addPackages`:
`options.pure === false ? false : options.pure || !!localPkg.workspaces`. -/
def doPureOf (options : AddPackagesOptions) (localPkg : PackageManifest) : Bool :=
  if options.pure == some false then false
  else (options.pure == some true || localPkg.workspaces)

/-- The manifest-mutation block of `addPackages` (src/add.ts lines 127–153),
entered when neither pure mode nor `options.link` applies.  Returns the
updated manifest, the new `localPkgUpdated` flag and `replacedVersion`.

JS object identity of `whereToAdd` / `whereToRemove` is embedded by the two
selector booleans (`true` selects the devDependencies object): the two
objects are distinct, so `whereToAdd !== whereToRemove` is exactly selector
inequality.  `localPkg.dependencies || {}` yields a *fresh* object when the
field is absent, so the write-back `Option.map (fun _ => …)` keeps an absent
field absent: mutations of the fresh object are lost. -/
def mutateManifest (options : AddPackagesOptions) (manifest : PackageManifest)
    (updated : Bool) (pkg : PackageManifest) :
    PackageManifest × Bool × String :=
  let protocol := if options.linkDep then "link:" else "file:"
  let localAddress := protocol ++ yalcPackagesFolder ++ "/" ++ pkg.name
  let dependencies := manifest.dependencies.getD []
  let devDependencies := manifest.devDependencies.getD []
  let removeIsDev := truthy devDependencies pkg.name
  let replacedVersion :=
    (alookup (if removeIsDev then devDependencies else dependencies)
      pkg.name).getD ""
  if replacedVersion != localAddress then
    let addIsDev := options.dev || removeIsDev
    let dependencies :=
      if addIsDev then dependencies
      else aset dependencies pkg.name localAddress
    let devDependencies :=
      if addIsDev then aset devDependencies pkg.name localAddress
      else devDependencies
    -- `if (whereToAdd !== whereToRemove) delete whereToRemove[pkg.name]`
    let dependencies :=
      if addIsDev != removeIsDev && !removeIsDev then
        adel dependencies pkg.name
      else dependencies
    let devDependencies :=
      if addIsDev != removeIsDev && removeIsDev then
        adel devDependencies pkg.name
      else devDependencies
    ({ manifest with
        dependencies := manifest.dependencies.map (fun _ => dependencies),
        devDependencies := manifest.devDependencies.map (fun _ => devDependencies) },
     true, replacedVersion)
  else (manifest, updated, "")

/-- The non-pure tail of one loop iteration (src/add.ts lines 127–207):
manifest mutation, the already-up-to-date skip, staging and `node_modules`
replacement and `.bin` linking. -/
def addOneImpure (env : AddEnv) (options : AddPackagesOptions)
    (workingDir : String) (st : AddState) (name version : String)
    (pkg : PackageManifest) (signature : String) : AddState :=
  let (manifest, updated, replacedVersion) :=
    if options.link then (st.manifest, st.updated, "")
    else mutateManifest options st.manifest st.updated pkg
  -- lines 156–167: the already-up-to-date skip (manifest mutation kept)
  let localPackageDir := joinPath workingDir (joinPath yalcPackagesFolder name)
  if signature == env.readSignatureFile localPackageDir then
    { st with manifest := manifest, updated := updated }
  else
    { manifest := manifest, updated := updated,
      installs := st.installs ++
        [{ signature := signature, name := name, version := version,
           replaced := replacedVersion, path := options.workingDir }],
      events := st.events ++
        [AEv.replaceStaging name, AEv.replaceNodeModules name options.link] ++
        binEvents pkg localPackageDir workingDir }

/-- The body of `packages.map(packageName => …)` in `addPackages`
(src/add.ts lines 79–217) for one requested package.  A skipped package
(`return null`) leaves the state unchanged — except, in the
signature-equality case inside `addOneImpure`, for manifest mutations
already made before the check. -/
def addOne (env : AddEnv) (options : AddPackagesOptions) (workingDir : String)
    (doPure : Bool) (st : AddState) (packageName : String) : AddState :=
  let (name, version) := env.parsePackageName packageName
  let storedPackagePath := getPackageStoreDir name
  if !(env.existsSync storedPackagePath) then st else
  let versionToInstall := if version != "" then version else env.latestVersion name
  let storedPackageDir := getPackageStoreVersionDir name versionToInstall
  if !(env.existsSync storedPackageDir) then st else
  match env.readPackage storedPackageDir with
  | Option.none => st
  | Option.some pkg =>
    let signature := env.readSignatureFile storedPackageDir
    if doPure then
      { st with installs := st.installs ++
          [{ signature := signature, name := name, version := version,
             replaced := "", path := options.workingDir }] }
    else addOneImpure env options workingDir st name version pkg signature

/-- Everything observable at the end of one `addPackages` call: the final
consumer manifest and whether `writePackage` ran, the `addedInstalls`, the
records handed to `addPackageToLockfile` and to `addInstallations`, and
the file-system events.  `Option.none` is the silent return when
`findPackage` or `readPackage` fail. -/
structure AddResult where
  manifest : PackageManifest
  manifestWritten : Bool
  installs : List InstallResult
  lockfile : List LockfileEntry
  installations : List InstallResult
  events : List AEv
  doPure : Bool
deriving DecidableEq, Repr

/-- The `LockfileEntry` built for one install result at the end of
`addPackages` (src/add.ts lines 225–236). -/
def lockfileEntryOf (options : AddPackagesOptions) (doPure : Bool)
    (i : InstallResult) : LockfileEntry :=
  { name := i.name, version := i.version, replaced := i.replaced,
    pure := doPure,
    file := !options.link && !options.linkDep && !doPure,
    link := options.linkDep && !doPure,
    signature := i.signature }

/-- The success path of `addPackages`, after `findPackage` and `readPackage`
have resolved the consumer at `workingDir` with manifest `localPkg`. -/
def addResultOf (env : AddEnv) (packages : List String)
    (options : AddPackagesOptions) (workingDir : String)
    (localPkg : PackageManifest) : AddResult :=
  let doPure := doPureOf options localPkg
  let st := packages.foldl (addOne env options workingDir doPure)
    { manifest := localPkg, updated := false, installs := [], events := [] }
  { manifest := st.manifest
    manifestWritten := st.updated
    installs := st.installs
    lockfile := st.installs.map (lockfileEntryOf options doPure)
    installations := st.installs
    events := st.events ++ (if options.yarn then [AEv.runYarn] else [])
    doPure := doPure }

/-- `addPackages` of src/add.ts (lines 64–244). -/
def addPackages (env : AddEnv) (packages : List String)
    (options : AddPackagesOptions) : Option AddResult :=
  match env.findPackage options.workingDir with
  | Option.none => Option.none
  | Option.some workingDir =>
    match env.readPackage workingDir with
    | Option.none => Option.none
    | Option.some localPkg =>
      Option.some (addResultOf env packages options workingDir localPkg)

/-! ## The publish engine: `publishPackage` -/

/-- `PublishPackageOptions` of src/add.ts (publish part), verbatim fields;
`privateFlag` embeds the `private` option. -/
structure PublishPackageOptions where
  workingDir : String
  signature : Bool := false
  knit : Bool := false
  force : Bool := false
  changed : Bool := false
  push : Bool := false
  pushSafe : Bool := false
  yarn : Bool := false
  files : Bool := false
  privateFlag : Bool := false
  recursive : Bool := false
deriving DecidableEq, Repr

/-- Observable actions of one `publishPackage` invocation, in order. -/
inductive Ev where
  /-- `console.log('Will not publish package with private: true …')`. -/
  | privateAbort
  /-- `execSync(scriptRunCmd + scriptName, { cwd: pkgDir, stdio: inherit })`. -/
  | runScript (dir scriptName : String)
  /-- The store copy made by `copyPackageToStore`. -/
  | storeWrite (name version : String)
  /-- `console.log('Package content has not changed, skipping publish.')`. -/
  | skipUnchanged (name : String)
  /-- `await addPackages(namesToAdd, { workingDir: pkgDir })`. -/
  | addPkgs (names : List String) (dir : String)
  /-- `console.log('\nPublishing: ' + pkg.name)`, immediately followed by
  `await publish(pkg, pkgDir)`: marks one package publication. -/
  | publishing (name : String)
  /-- One iteration of the push loop: `updatePackages([pkg.name], { workingDir })`. -/
  | push (name dir : String)
  /-- `await removeInstallations(installationsToRemove)`. -/
  | removeInst (entries : List (String × String))
deriving DecidableEq, Repr

/-- The store: signature persisted per (package name, version). -/
def Store := List ((String × String) × String)
deriving DecidableEq, Repr

def storeLookup (s : Store) (name version : String) : Option String :=
  (List.find? (fun p => p.1 == (name, version)) s).map (·.2)

def storeInsert (s : Store) (name version signature : String) : Store :=
  if (List.find? (fun p => p.1 == (name, version)) s).isSome then
    List.map (fun p => if p.1 == (name, version) then (p.1, signature) else p) s
  else List.concat s ((name, version), signature)

/-- Mutable state of one publish invocation: the package store and the trace. -/
structure St where
  store : Store
  events : List Ev
deriving DecidableEq, Repr

/-- The external collaborators of the publish engine.  `manifests` is the
finite directory → manifest table behind `readPackage` (finiteness of the
on-disk package set is what bounds the recursion); `linkTarget` is
`lstat`/`readlinkSync` (`Option.some target` iff the path is a symlink);
`scriptOk` is the exit status of `execSync`; `contentSig` the content
signature `copyPackageToStore` computes for a package directory;
`installations` is `readInstallationsFile()[name] || []` and
`updateRemovals` the stale installations `updatePackages` reports for one
consumer directory. -/
structure PubEnv where
  manifests : List (String × PackageManifest)
  findPackage : String → Option String
  linkTarget : String → Option String
  scriptOk : String → String → Bool
  contentSig : String → String
  installations : String → List String
  updateRemovals : String → List (String × String)
  initialStore : Store

/-- `readPackage(dir)` on the publish side: lookup in the finite table. -/
def readPackage (env : PubEnv) (dir : String) : Option PackageManifest :=
  (env.manifests.find? (fun p => p.1 == dir)).map (·.2)

/-- All package names present in the environment's manifest table. -/
def envNames (env : PubEnv) : List String :=
  env.manifests.map (fun p => p.2.name)

/-- `const YALC_DIR = path.sep + values.yalcPackagesFolder + path.sep`. -/
def YALC_DIR : String := "/" ++ yalcPackagesFolder ++ "/"

/-- `target.includes(YALC_DIR)`: substring test on the readlink target. -/
def includesYalcDir (target : String) : Bool :=
  decide (YALC_DIR.toList <:+: target.toList)

/-- How one call of a publish-engine function ends: normally, with the fuel
of the embedding exhausted (never happens with enough fuel, see the
termination theorem), or aborted by a failing script (`execSync` throw). -/
inductive Outcome (α : Type) where
  | ok (a : α)
  | fuel
  | script (dir scriptName : String)
deriving DecidableEq, Repr

/-- `scriptNames.filter(name => !!scripts[name])[0]`: the first script of
the family that is present with a non-empty command. -/
def firstScript (scripts : List (String × String)) (names : List String) : Option String :=
  (names.filter (fun n => truthy scripts n)).head?

def preScriptNames : List String := ["preyalc", "prepare", "prepublishOnly", "prepublish"]

def postScriptNames : List String := ["postyalc", "postpublish"]

/-- Run the first matching script of a family, recording the `execSync` and
failing when its exit status is non-zero. -/
def runScriptStep (env : PubEnv) (pkgDir : String)
    (scripts : List (String × String)) (names : List String) (st : St) :
    St × Outcome Unit :=
  match firstScript scripts names with
  | Option.none => (st, Outcome.ok ())
  | Option.some scriptName =>
      let st := { st with events := st.events ++ [Ev.runScript pkgDir scriptName] }
      if env.scriptOk pkgDir scriptName then (st, Outcome.ok ())
      else (st, Outcome.script pkgDir scriptName)

/-- Modelled from the spec: `copyPackageToStore` (src/copy.ts, which is not
included under src/).  It copies the packaged file set into the store under
(name, version), persisting the computed content signature, and reports
whether content changed; in change-detection mode, when the signature equals
the one already stored, it leaves the store untouched and reports `false`. -/
def copyPackageToStore (env : PubEnv) (options : PublishPackageOptions)
    (pkg : PackageManifest) (workingDir : String) (st : St) : St × Bool :=
  let signature := env.contentSig workingDir
  if options.changed &&
      (storeLookup st.store pkg.name pkg.version == Option.some signature) then
    (st, false)
  else
    ({ store := storeInsert st.store pkg.name pkg.version signature,
       events := st.events ++ [Ev.storeWrite pkg.name pkg.version] }, true)

/-- The tail of the inner `publish` after the pre-publish script (src/add.ts
lines 389–420): store copy, change-detection early return, post-publish
script (first of `postyalc`, `postpublish`). -/
def publishRest (env : PubEnv) (options : PublishPackageOptions)
    (pkg : PackageManifest) (pkgDir : String) (scriptRunCmd : Bool)
    (scripts : List (String × String)) (st : St) : St × Outcome Unit :=
  let (st, copyRes) := copyPackageToStore env options pkg pkgDir st
  if options.changed && !copyRes then
    ({ st with events := st.events ++ [Ev.skipUnchanged pkg.name] }, Outcome.ok ())
  else
    let (st, post) :=
      if scriptRunCmd then runScriptStep env pkgDir scripts postScriptNames st
      else (st, Outcome.ok ())
    match post with
    | Outcome.script d n => (st, Outcome.script d n)
    | Outcome.fuel => (st, Outcome.fuel)
    | Outcome.ok _ => (st, Outcome.ok ())

/-- The inner `publish(pkg, pkgDir)` of `publishPackage` (src/add.ts lines
366–420): optional pre-publish script (first of `preyalc`, `prepare`,
`prepublishOnly`, `prepublish`), then `publishRest`. -/
def publish (env : PubEnv) (options : PublishPackageOptions)
    (pkg : PackageManifest) (pkgDir : String) (st : St) : St × Outcome Unit :=
  let scripts := pkg.scripts.getD []
  -- `!options.force && pkg.scripts ? getPackageManager(pkgDir) + ' run ' : ''`
  let scriptRunCmd := !options.force && pkg.scripts.isSome
  let (st, pre) :=
    if scriptRunCmd then runScriptStep env pkgDir scripts preScriptNames st
    else (st, Outcome.ok ())
  match pre with
  | Outcome.script d n => (st, Outcome.script d n)
  | Outcome.fuel => (st, Outcome.fuel)
  | Outcome.ok _ => publishRest env options pkg pkgDir scriptRunCmd scripts st

/-- Emit the `Publishing: name` log and run the inner `publish`, threading
the visited set through on success (shared tail of both branches of
`publishDepthFirst`). -/
def publishSelf (env : PubEnv) (options : PublishPackageOptions)
    (pkg : PackageManifest) (pkgDir : String) (visited : List String) (st : St) :
    St × Outcome (List String) :=
  let st := { st with events := st.events ++ [Ev.publishing pkg.name] }
  match publish env options pkg pkgDir st with
  | (st, Outcome.ok _) => (st, Outcome.ok visited)
  | (st, Outcome.fuel) => (st, Outcome.fuel)
  | (st, Outcome.script d n) => (st, Outcome.script d n)

/-- The `for (const name in deps)` loop of `publishDepthFirst` (src/add.ts
lines 338–355).  `rec` is the recursive `publishDepthFirst` call (one fuel
level down); the loop threads the visited set and accumulates `namesToAdd`.
Skips: not a symlink, target inside a `.yalc` directory, unreadable
manifest, private manifest. -/
def depLoop (env : PubEnv)
    (rec : List String → PackageManifest → String → St → St × Outcome (List String))
    (pkgDir : String) :
    List String → List String → List String → St →
    St × Outcome (List String × List String)
  | [], visited, namesToAdd, st => (st, Outcome.ok (visited, namesToAdd))
  | name :: rest, visited, namesToAdd, st =>
    let depDir := joinPath (joinPath pkgDir "node_modules") name
    match env.linkTarget depDir with
    | Option.none => depLoop env rec pkgDir rest visited namesToAdd st
    | Option.some target =>
      if includesYalcDir target then depLoop env rec pkgDir rest visited namesToAdd st
      else
        match readPackage env depDir with
        | Option.none => depLoop env rec pkgDir rest visited namesToAdd st
        | Option.some dep =>
          if dep.privateFlag then depLoop env rec pkgDir rest visited namesToAdd st
          else
            match rec visited dep depDir st with
            | (st, Outcome.ok visited) =>
                depLoop env rec pkgDir rest visited (namesToAdd ++ [dep.name]) st
            | (st, Outcome.fuel) => (st, Outcome.fuel)
            | (st, Outcome.script d n) => (st, Outcome.script d n)

/-- `publishDepthFirst(pkg, pkgDir)` (src/add.ts lines 332–363).  The JS
function recurses on a call stack bounded by the growing `publishedNames`
set; the embedding makes the stack explicit as fuel, and the termination
theorem shows fuel beyond the number of distinct package names is never
consumed. -/
def publishDepthFirst (env : PubEnv) (options : PublishPackageOptions) :
    Nat → List String → PackageManifest → String → St →
    St × Outcome (List String)
  | 0, _, _, _, st => (st, Outcome.fuel)
  | Nat.succ fuel, publishedNames, pkg, pkgDir, st =>
    if publishedNames.contains pkg.name then (st, Outcome.ok publishedNames)
    else
      let publishedNames := pkg.name :: publishedNames
      -- `if (deps && options.recursive)`
      if options.recursive then
        match pkg.dependencies with
        | Option.some deps =>
          match depLoop env (publishDepthFirst env options fuel) pkgDir
              (deps.map (·.1)) publishedNames [] st with
          | (st, Outcome.ok (publishedNames, namesToAdd)) =>
              let st := { st with events := st.events ++ [Ev.addPkgs namesToAdd pkgDir] }
              publishSelf env options pkg pkgDir publishedNames st
          | (st, Outcome.fuel) => (st, Outcome.fuel)
          | (st, Outcome.script d n) => (st, Outcome.script d n)
        | Option.none => publishSelf env options pkg pkgDir publishedNames st
      else publishSelf env options pkg pkgDir publishedNames st

/-- `publishPackage(options)` (src/add.ts lines 293–329): private guard,
depth-first publish from the resolved working directory, then — only at the
root level — the push loop over the installation registry.
`readInstallationsFile`, `updatePackages` and `removeInstallations`
(src/installations.ts, src/update.ts, not included under src/) are modelled
from the spec as the push events plus the collected stale-installation
removals. -/
def publishPackage (env : PubEnv) (options : PublishPackageOptions)
    (fuel : Nat) : St × Outcome Unit :=
  let st0 : St := { store := env.initialStore, events := [] }
  match env.findPackage options.workingDir with
  | Option.none => (st0, Outcome.ok ())
  | Option.some workingDir =>
    match readPackage env workingDir with
    | Option.none => (st0, Outcome.ok ())
    | Option.some pkg =>
      if pkg.privateFlag && !options.privateFlag then
        ({ st0 with events := [Ev.privateAbort] }, Outcome.ok ())
      else
        match publishDepthFirst env options fuel [] pkg workingDir st0 with
        | (st, Outcome.ok _) =>
          if options.push || options.pushSafe then
            let installationPaths := env.installations pkg.name
            let st := installationPaths.foldl (fun st dir =>
              { st with events := st.events ++ [Ev.push pkg.name dir] }) st
            let installationsToRemove := installationPaths.foldl
              (fun acc dir => acc ++ env.updateRemovals dir) []
            if installationsToRemove.length != 0 then
              ({ st with events := st.events ++ [Ev.removeInst installationsToRemove] },
               Outcome.ok ())
            else (st, Outcome.ok ())
          else (st, Outcome.ok ())
        | (st, Outcome.fuel) => (st, Outcome.fuel)
        | (st, Outcome.script d n) => (st, Outcome.script d n)

/-- The names carried by `Ev.publishing` events: the packages published by
one invocation, in order. -/
def publishedNamesOf (evs : List Ev) : List String :=
  evs.filterMap (fun e => match e with
    | Ev.publishing n => Option.some n
    | _ => Option.none)

/-- The spec sentence's reading of the self-link test: the symlink target
points into *this* consumer's own staging folder `<pkgDir>/.yalc/`.  Declared
for comparison with the code's `includesYalcDir` substring test. -/
def pointsIntoOwnStaging (pkgDir target : String) : Bool :=
  (joinPath pkgDir yalcPackagesFolder ++ "/").toList.isPrefixOf target.toList

/-- The test `publishDepthFirst` applies to one direct dependency name:
the `node_modules` entry is a symlink, its target has no `/.yalc/` segment,
its manifest is readable and not private.  Returns the linked manifest when
the dependency qualifies for recursive publication. -/
def qualifiesDep (env : PubEnv) (pkgDir name : String) : Option PackageManifest :=
  let depDir := joinPath (joinPath pkgDir "node_modules") name
  match env.linkTarget depDir with
  | Option.none => Option.none
  | Option.some target =>
    if includesYalcDir target then Option.none
    else
      match readPackage env depDir with
      | Option.none => Option.none
      | Option.some dep =>
        if dep.privateFlag then Option.none else Option.some dep

/-- The manifest names of the qualifying dependencies, in dependency order:
the `namesToAdd` list `publishDepthFirst` hands to `addPackages`. -/
def qualNames (env : PubEnv) (pkgDir : String) (names : List String) : List String :=
  names.filterMap (fun n => (qualifiesDep env pkgDir n).map PackageManifest.name)

/-- Package names of the environment not yet visited: the strictly
decreasing measure of the depth-first recursion. -/
def newEnvCount (env : PubEnv) (visited : List String) : Nat :=
  ((envNames env).dedup.filter (fun n => !visited.contains n)).length

/-- File-system mutations of the add engine other than the explicit `yarn`
run: staging replacement, `node_modules` replacement, `.bin` links. -/
def isFsMutation (e : AEv) : Bool :=
  match e with
  | AEv.runYarn => false
  | _ => true

/-- Is this event the run of a script of the pre-publish family? -/
def isPreScriptEv (e : Ev) : Bool :=
  match e with
  | Ev.runScript _ n => preScriptNames.contains n
  | _ => false

/-- The package is effectively listed (present with a non-empty value, the
code's truthiness test) in both `dependencies` and `devDependencies`. -/
def listedInBoth (m : PackageManifest) (n : String) : Bool :=
  truthy (m.dependencies.getD []) n && truthy (m.devDependencies.getD []) n

/-! ## Concrete environments used by witnesses and counterexamples -/

/-- The stored manifest of package `foo@1.0.0`. -/
def fooStoreMan : PackageManifest := { name := "foo", version := "1.0.0" }

def fooStoreDir : String := getPackageStoreVersionDir "foo" "1.0.0"

/-- An add environment with one consumer project at `/c` (manifest
`consumer`) and `foo@1.0.0` in the store with signature `"sig1"`; the staged
copy `/c/.yalc/foo` has signature `stagedSig`. -/
def mkAddEnv (consumer : PackageManifest) (stagedSig : String) : AddEnv where
  findPackage := fun d => if d == "/c" then Option.some "/c" else Option.none
  readPackage := fun d =>
    if d == "/c" then Option.some consumer
    else if d == fooStoreDir then Option.some fooStoreMan
    else Option.none
  parsePackageName := fun s => (s, "")
  existsSync := fun p => p == getPackageStoreDir "foo" || p == fooStoreDir
  readSignatureFile := fun p =>
    if p == fooStoreDir then "sig1"
    else if p == "/c/.yalc/foo" then stagedSig
    else ""
  latestVersion := fun n => if n == "foo" then "1.0.0" else ""

/-- A consumer already listing `foo` in both dependency fields. -/
def consumerBoth : PackageManifest :=
  { name := "consumer", version := "0.1.0",
    dependencies := Option.some [("foo", "2.0.0")],
    devDependencies := Option.some [("foo", "1.0.0")] }

/-- A consumer listing `foo` as a plain dependency. -/
def consumerPlain : PackageManifest :=
  { name := "consumer", version := "0.1.0",
    dependencies := Option.some [("foo", "^1.0.0")],
    devDependencies := Option.some [] }

/-- A consumer whose manifest has neither dependency field. -/
def consumerBare : PackageManifest := { name := "consumer", version := "0.1.0" }

def optsC : AddPackagesOptions := { workingDir := "/c" }

/-- Every combination of the five boolean options with `pure: false`, for
exhausting the option space of `addPackages` at one input. -/
def allOptionCombos : List AddPackagesOptions :=
  [false, true].flatMap (fun dev =>
    [false, true].flatMap (fun link =>
      [false, true].flatMap (fun linkDep =>
        [false, true].flatMap (fun yarn =>
          [false, true].map (fun safe =>
            { dev := dev, link := link, linkDep := linkDep, yarn := yarn,
              safe := safe, pure := Option.some false,
              workingDir := "/c" : AddPackagesOptions })))))

/-- Packages `a` and `b`, mutually linked: `a`'s `node_modules/b` is a
symlink to `/b` and (through it) `b`'s `node_modules/a` is a symlink to
`/a` — the A→B→A cycle of the spec. -/
def manA : PackageManifest :=
  { name := "a", version := "1.0.0",
    dependencies := Option.some [("b", "file:.yalc/b")] }

def manB : PackageManifest :=
  { name := "b", version := "1.0.0",
    dependencies := Option.some [("a", "file:.yalc/a")] }

def envAB : PubEnv where
  manifests := [("/a", manA), ("/b", manB),
                ("/a/node_modules/b", manB),
                ("/a/node_modules/b/node_modules/a", manA)]
  findPackage := fun d => if d == "/a" then Option.some "/a" else Option.none
  linkTarget := fun p =>
    if p == "/a/node_modules/b" then Option.some "/b"
    else if p == "/a/node_modules/b/node_modules/a" then Option.some "/a"
    else Option.none
  scriptOk := fun _ _ => true
  contentSig := fun d => "sig-" ++ d
  installations := fun _ => []
  updateRemovals := fun _ => []
  initialStore := []

def optsAB : PublishPackageOptions := { workingDir := "/a", recursive := true }

/-- A root package `r` already in the store with its current content
signature, one registered consumer `/c1`. -/
def manR : PackageManifest := { name := "r", version := "1.0.0" }

def envR : PubEnv where
  manifests := [("/r", manR)]
  findPackage := fun d => if d == "/r" then Option.some "/r" else Option.none
  linkTarget := fun _ => Option.none
  scriptOk := fun _ _ => true
  contentSig := fun _ => "sigR"
  installations := fun n => if n == "r" then ["/c1"] else []
  updateRemovals := fun _ => []
  initialStore := [(("r", "1.0.0"), "sigR")]

def optsChangedPush : PublishPackageOptions :=
  { workingDir := "/r", changed := true, push := true }

/-- A private package `p`. -/
def manP : PackageManifest :=
  { name := "p", version := "1.0.0", privateFlag := true }

def envP : PubEnv where
  manifests := [("/p", manP)]
  findPackage := fun d => if d == "/p" then Option.some "/p" else Option.none
  linkTarget := fun _ => Option.none
  scriptOk := fun _ _ => true
  contentSig := fun _ => "sigP"
  installations := fun _ => ["/c9"]
  updateRemovals := fun _ => []
  initialStore := []

/-- A package `s` declaring `prepare` and `prepublish` scripts, whose
`prepare` run fails. -/
def manS : PackageManifest :=
  { name := "s", version := "1.0.0",
    scripts := Option.some [("prepare", "build"), ("prepublish", "old")] }

def envS : PubEnv where
  manifests := [("/s", manS)]
  findPackage := fun d => if d == "/s" then Option.some "/s" else Option.none
  linkTarget := fun _ => Option.none
  scriptOk := fun _ _ => false
  contentSig := fun _ => "sigS"
  installations := fun _ => []
  updateRemovals := fun _ => []
  initialStore := []

/-- A root at `/proj` whose dependency `b` is a symlink into *another*
project's `.yalc` folder (`/other/.yalc/b`), readable and not private. -/
def manRoot9 : PackageManifest :=
  { name := "root9", version := "1.0.0",
    dependencies := Option.some [("b", "*")] }

def manB9 : PackageManifest := { name := "b", version := "1.0.0" }

def envC9x : PubEnv where
  manifests := [("/proj", manRoot9), ("/proj/node_modules/b", manB9)]
  findPackage := fun d => if d == "/proj" then Option.some "/proj" else Option.none
  linkTarget := fun p =>
    if p == "/proj/node_modules/b" then Option.some "/other/.yalc/b"
    else Option.none
  scriptOk := fun _ _ => true
  contentSig := fun d => "sig-" ++ d
  installations := fun _ => []
  updateRemovals := fun _ => []
  initialStore := []

def optsC9x : PublishPackageOptions := { workingDir := "/proj", recursive := true }

/-- Is this event the publication marker of a package? -/
def isPublishingEv (e : Ev) : Bool :=
  match e with
  | Ev.publishing _ => true
  | _ => false

/-- The concrete lockfile entry produced by the C3 witness run. -/
def c3Entry : LockfileEntry :=
  { name := "foo", version := "", replaced := "^1.0.0", pure := false,
    file := true, link := false, signature := "sig1" }

/-! ## Helper lemmas about the association-list model -/

theorem find1_map_replace_self (l : List (String × String)) (k v : String) :
    (l.map (fun p => if p.1 == k then (k, v) else p)).find? (fun p => p.1 == k) =
      (l.find? (fun p => p.1 == k)).map (fun _ => ((k, v) : String × String)) := by
  induction l with
  | nil => rfl
  | cons hd t ih =>
    rw [List.map_cons]
    by_cases hk : (hd.1 == k) = true
    · rw [if_pos hk,
        List.find?_cons_of_pos (p := fun (q : String × String) => q.1 == k) _ (by simp),
        List.find?_cons_of_pos (p := fun (q : String × String) => q.1 == k) _ hk]
      rfl
    · rw [if_neg hk,
        List.find?_cons_of_neg (p := fun (q : String × String) => q.1 == k) _ hk,
        List.find?_cons_of_neg (p := fun (q : String × String) => q.1 == k) _ hk]
      exact ih

theorem find1_map_replace_ne (l : List (String × String)) (k v n : String)
    (h : n ≠ k) :
    (l.map (fun p => if p.1 == k then (k, v) else p)).find? (fun p => p.1 == n) =
      l.find? (fun p => p.1 == n) := by
  have hkn : (k == n) = false := beq_eq_false_iff_ne.2 (Ne.symm h)
  induction l with
  | nil => rfl
  | cons hd t ih =>
    rw [List.map_cons]
    by_cases hk : (hd.1 == k) = true
    · have h1 : hd.1 = k := by simpa using hk
      have h3 : (hd.1 == n) = false := by rw [h1]; exact hkn
      rw [if_pos hk,
        List.find?_cons_of_neg (p := fun (q : String × String) => q.1 == n) _ (by simp [hkn]),
        List.find?_cons_of_neg (p := fun (q : String × String) => q.1 == n) _ (by simp [h3])]
      exact ih
    · rw [if_neg hk]
      by_cases hn : (hd.1 == n) = true
      · rw [List.find?_cons_of_pos (p := fun (q : String × String) => q.1 == n) _ hn,
          List.find?_cons_of_pos (p := fun (q : String × String) => q.1 == n) _ hn]
      · rw [List.find?_cons_of_neg (p := fun (q : String × String) => q.1 == n) _ hn,
          List.find?_cons_of_neg (p := fun (q : String × String) => q.1 == n) _ hn]
        exact ih

theorem find1_append (l1 l2 : List (String × String)) (f : String × String → Bool) :
    (l1 ++ l2).find? f = ((l1.find? f).or (l2.find? f)) := by
  induction l1 with
  | nil => rw [List.nil_append, List.find?_nil]; rfl
  | cons hd t ih =>
    rw [List.cons_append]
    by_cases hp : f hd = true
    · rw [List.find?_cons_of_pos (p := f) _ hp,
        List.find?_cons_of_pos (p := f) _ hp]
      rfl
    · rw [List.find?_cons_of_neg (p := f) _ hp,
        List.find?_cons_of_neg (p := f) _ hp, ih]

theorem alookup_aset_self (l : List (String × String)) (k v : String) :
    alookup (aset l k v) k = Option.some v := by
  unfold alookup aset
  by_cases hs : (l.find? (fun p => p.1 == k)).isSome = true
  · rw [if_pos hs, find1_map_replace_self]
    obtain ⟨x, hx⟩ := Option.isSome_iff_exists.1 hs
    rw [hx]; rfl
  · have hn : l.find? (fun p => p.1 == k) = Option.none :=
      Option.not_isSome_iff_eq_none.1 hs
    rw [if_neg hs, find1_append, hn,
      List.find?_cons_of_pos (p := fun (q : String × String) => q.1 == k) _ (by simp)]
    rfl

theorem alookup_aset_ne (l : List (String × String)) (k v n : String)
    (h : n ≠ k) : alookup (aset l k v) n = alookup l n := by
  unfold alookup aset
  by_cases hs : (l.find? (fun p => p.1 == k)).isSome = true
  · rw [if_pos hs, find1_map_replace_ne l k v n h]
  · have hkn : (k == n) = false := beq_eq_false_iff_ne.2 (Ne.symm h)
    rw [if_neg hs, find1_append,
      List.find?_cons_of_neg (p := fun (q : String × String) => q.1 == n) _ (by simp [hkn]),
      List.find?_nil]
    cases l.find? (fun p => p.1 == n) <;> rfl

theorem alookup_adel_self (l : List (String × String)) (k : String) :
    alookup (adel l k) k = Option.none := by
  unfold alookup adel
  induction l with
  | nil => rfl
  | cons hd t ih =>
    rw [List.filter_cons]
    by_cases hk : (hd.1 == k) = true
    · have hbne : (hd.1 != k) = false := by simp [bne, hk]
      rw [hbne]
      simp only [Bool.false_eq_true, if_false]
      exact ih
    · have hne : (hd.1 != k) = true := by
        simp only [bne, Bool.not_eq_true']
        simp only [Bool.not_eq_true] at hk
        exact hk
      rw [if_pos hne, List.find?_cons_of_neg (p := fun (q : String × String) => q.1 == k) _ hk]
      exact ih

theorem alookup_adel_ne (l : List (String × String)) (k n : String)
    (h : n ≠ k) : alookup (adel l k) n = alookup l n := by
  unfold alookup adel
  induction l with
  | nil => rfl
  | cons hd t ih =>
    rw [List.filter_cons]
    by_cases hk : (hd.1 == k) = true
    · have h1 : hd.1 = k := by simpa using hk
      have h3 : (hd.1 == n) = false := by
        rw [h1]; exact beq_eq_false_iff_ne.2 (Ne.symm h)
      have hbne : (hd.1 != k) = false := by simp [bne, hk]
      rw [hbne]
      simp only [Bool.false_eq_true, if_false]
      rw [List.find?_cons_of_neg (p := fun (q : String × String) => q.1 == n) _ (by simp [h3]), ih]
    · have hne : (hd.1 != k) = true := by
        simp only [bne, Bool.not_eq_true']
        simp only [Bool.not_eq_true] at hk
        exact hk
      rw [if_pos hne]
      by_cases hn : (hd.1 == n) = true
      · rw [List.find?_cons_of_pos (p := fun (q : String × String) => q.1 == n) _ hn,
          List.find?_cons_of_pos (p := fun (q : String × String) => q.1 == n) _ hn]
      · rw [List.find?_cons_of_neg (p := fun (q : String × String) => q.1 == n) _ hn,
          List.find?_cons_of_neg (p := fun (q : String × String) => q.1 == n) _ hn, ih]

/-! ## Basic facts about `addPackages` -/

theorem addPackages_some (env : AddEnv) (packages : List String)
    (options : AddPackagesOptions) (wd : String) (localPkg : PackageManifest)
    (hfind : env.findPackage options.workingDir = Option.some wd)
    (hread : env.readPackage wd = Option.some localPkg) :
    addPackages env packages options =
      Option.some (addResultOf env packages options wd localPkg) := by
  unfold addPackages
  rw [hfind]
  dsimp only
  rw [hread]

/-- In pure mode one loop iteration touches neither the manifest, nor the
`localPkgUpdated` flag, nor the file system. -/
theorem addOne_pure (env : AddEnv) (options : AddPackagesOptions) (wd : String)
    (st : AddState) (p : String) :
    ((addOne env options wd true st p).manifest = st.manifest) ∧
    ((addOne env options wd true st p).updated = st.updated) ∧
    ((addOne env options wd true st p).events = st.events) := by
  unfold addOne
  cases h : env.parsePackageName p with
  | mk name version =>
    dsimp only
    generalize (if (version != "") = true then version else env.latestVersion name) = vti
    by_cases h1 : env.existsSync (getPackageStoreDir name) = false
    · simp [h1]
    · simp only [Bool.not_eq_false] at h1
      simp only [h1, Bool.not_true, Bool.false_eq_true, if_false]
      by_cases h2 : env.existsSync (getPackageStoreVersionDir name vti) = false
      · simp [h2]
      · simp only [Bool.not_eq_false] at h2
        simp only [h2, Bool.not_true, Bool.false_eq_true, if_false]
        cases env.readPackage (getPackageStoreVersionDir name vti) with
        | none => exact ⟨rfl, rfl, rfl⟩
        | some pkg => exact ⟨rfl, rfl, rfl⟩

theorem foldl_addOne_pure (env : AddEnv) (options : AddPackagesOptions)
    (wd : String) (packages : List String) : ∀ st : AddState,
    ((packages.foldl (addOne env options wd true) st).manifest = st.manifest) ∧
    ((packages.foldl (addOne env options wd true) st).updated = st.updated) ∧
    ((packages.foldl (addOne env options wd true) st).events = st.events) := by
  induction packages with
  | nil => intro st; exact ⟨rfl, rfl, rfl⟩
  | cons p rest ih =>
    intro st
    rw [List.foldl_cons]
    obtain ⟨h1, h2, h3⟩ := ih (addOne env options wd true st p)
    obtain ⟨g1, g2, g3⟩ := addOne_pure env options wd st p
    exact ⟨h1.trans g1, h2.trans g2, h3.trans g3⟩

/-! ## Claim C3 -/

/-- Inversion of a successful `addPackages` call. -/
theorem addPackages_some_inv (env : AddEnv) (packages : List String)
    (options : AddPackagesOptions) (r : AddResult)
    (hr : addPackages env packages options = Option.some r) :
    ∃ wd localPkg, env.findPackage options.workingDir = Option.some wd ∧
      env.readPackage wd = Option.some localPkg ∧
      r = addResultOf env packages options wd localPkg := by
  unfold addPackages at hr
  cases hfp : env.findPackage options.workingDir with
  | none => rw [hfp] at hr; exact absurd hr (by simp)
  | some wd =>
    rw [hfp] at hr
    dsimp only at hr
    cases hrp : env.readPackage wd with
    | none => rw [hrp] at hr; exact absurd hr (by simp)
    | some localPkg =>
      rw [hrp] at hr
      dsimp only at hr
      injection hr with h
      exact ⟨wd, localPkg, rfl, hrp, h.symm⟩

/-- **C3** (confirmed).  For every `LockfileEntry` written by `addPackages`,
at most one of the flags `pure`, `file`, `link` is true: when `pure` is true
both `file` and `link` are false, and `file` and `link` are never true
together, whatever the `link`, `linkDep` and `pure` options were. -/
theorem c3_lockfile_flags_exclusive (env : AddEnv) (packages : List String)
    (options : AddPackagesOptions) (r : AddResult)
    (hr : addPackages env packages options = Option.some r)
    (e : LockfileEntry) (he : e ∈ r.lockfile) :
    (e.pure = true → e.file = false ∧ e.link = false) ∧
    ¬(e.file = true ∧ e.link = true) := by
  obtain ⟨wd, localPkg, hfp, hrp, rfl⟩ :=
    addPackages_some_inv env packages options r hr
  unfold addResultOf at he
  dsimp only at he
  obtain ⟨i, _, rfl⟩ := List.mem_map.1 he
  unfold lockfileEntryOf
  dsimp only
  cases hd : doPureOf options localPkg <;>
    cases hl : options.link <;>
      cases hld : options.linkDep <;> simp

theorem c3_lockfile_flags_exclusive_witness :
    (addPackages (mkAddEnv consumerPlain "other") ["foo"] optsC =
      Option.some (addResultOf (mkAddEnv consumerPlain "other") ["foo"] optsC
        "/c" consumerPlain)) ∧
    c3Entry ∈ (addResultOf (mkAddEnv consumerPlain "other") ["foo"] optsC
        "/c" consumerPlain).lockfile ∧
    ((c3Entry.pure = true → c3Entry.file = false ∧ c3Entry.link = false) ∧
     ¬(c3Entry.file = true ∧ c3Entry.link = true)) :=
  ⟨by decide, by decide,
    c3_lockfile_flags_exclusive (mkAddEnv consumerPlain "other") ["foo"] optsC
      (addResultOf (mkAddEnv consumerPlain "other") ["foo"] optsC "/c" consumerPlain)
      (by decide) c3Entry (by decide)⟩

/-! ## Claim C4 -/

theorem truthy_aset_ne (l : List (String × String)) (k v n : String)
    (h : n ≠ k) : truthy (aset l k v) n = truthy l n := by
  unfold truthy; rw [alookup_aset_ne l k v n h]

theorem truthy_adel_ne (l : List (String × String)) (k n : String)
    (h : n ≠ k) : truthy (adel l k) n = truthy l n := by
  unfold truthy; rw [alookup_adel_ne l k n h]

theorem truthy_adel_self (l : List (String × String)) (k : String) :
    truthy (adel l k) k = false := by
  unfold truthy; rw [alookup_adel_self]; rfl

/-- Core of the double-listing preservation argument, over the two
dependency objects of one mutation step. -/
theorem notBoth_core (options : AddPackagesOptions) (pkgName : String)
    (D0 V0 : List (String × String)) (n la : String) (rd ad : Bool)
    (D1 V1 D2 V2 : List (String × String))
    (hrd : rd = truthy V0 pkgName) (had : ad = (options.dev || rd))
    (hD1 : D1 = if ad then D0 else aset D0 pkgName la)
    (hV1 : V1 = if ad then aset V0 pkgName la else V0)
    (hD2 : D2 = if (ad != rd && !rd) then adel D1 pkgName else D1)
    (hV2 : V2 = if (ad != rd && rd) then adel V1 pkgName else V1)
    (h : (truthy D0 n && truthy V0 n) = false) :
    (truthy D2 n && truthy V2 n) = false := by
  subst hrd had hD1 hV1 hD2 hV2
  by_cases hn : n = pkgName
  · subst hn
    cases hrd0 : truthy V0 n with
    | false =>
      cases hdv : options.dev with
      | false =>
        -- nothing is deleted and the dev object is untouched; its value stays falsy
        simp [hrd0, hdv]
      | true =>
        -- the name moves to devDependencies and is deleted from dependencies
        simp [hrd0, hdv, truthy_adel_self]
    | true =>
      -- whereToRemove = whereToAdd = devDependencies: dependencies untouched,
      -- and the hypothesis forces its value there to be falsy
      have hD : truthy D0 n = false := by
        cases hD0 : truthy D0 n with
        | false => rfl
        | true => rw [hD0, hrd0] at h; cases h
      simp [hrd0, hD]
  · -- any other name is never touched by the mutation
    have hD2 : truthy (if ((options.dev || truthy V0 pkgName) != truthy V0 pkgName
          && !truthy V0 pkgName) then
          adel (if (options.dev || truthy V0 pkgName) then D0
            else aset D0 pkgName la) pkgName
        else (if (options.dev || truthy V0 pkgName) then D0
            else aset D0 pkgName la)) n = truthy D0 n := by
      split
      · rw [truthy_adel_ne _ _ _ hn]
        split
        · rfl
        · rw [truthy_aset_ne _ _ _ _ hn]
      · split
        · rfl
        · rw [truthy_aset_ne _ _ _ _ hn]
    have hV2 : truthy (if ((options.dev || truthy V0 pkgName) != truthy V0 pkgName
          && truthy V0 pkgName) then
          adel (if (options.dev || truthy V0 pkgName) then aset V0 pkgName la
            else V0) pkgName
        else (if (options.dev || truthy V0 pkgName) then aset V0 pkgName la
            else V0)) n = truthy V0 n := by
      split
      · rw [truthy_adel_ne _ _ _ hn]
        split
        · rw [truthy_aset_ne _ _ _ _ hn]
        · rfl
      · split
        · rw [truthy_aset_ne _ _ _ _ hn]
        · rfl
    rw [hD2, hV2, h]

/-- The manifest-mutation block never *introduces* a double listing: a name
not effectively listed in both dependency fields stays that way. -/
theorem mutateManifest_notBoth (options : AddPackagesOptions)
    (m : PackageManifest) (u : Bool) (pkg : PackageManifest) (n : String)
    (h : listedInBoth m n = false) :
    listedInBoth (mutateManifest options m u pkg).1 n = false := by
  unfold listedInBoth at h ⊢
  unfold mutateManifest
  cases hdep : m.dependencies with
  | none =>
    -- the dependencies field stays absent in either branch
    dsimp only
    repeat' split
    all_goals simp [hdep, truthy, alookup]
  | some D0 =>
    cases hdev : m.devDependencies with
    | none =>
      dsimp only
      repeat' split
      all_goals simp [hdev, truthy, alookup]
    | some V0 =>
      rw [hdep, hdev] at h
      try simp only [Option.getD_some] at h
      dsimp only
      try simp only [Option.getD_some]
      by_cases hc : ((alookup (if truthy V0 pkg.name then V0 else D0)
            pkg.name).getD "" !=
          ((if options.linkDep then "link:" else "file:") ++
            yalcPackagesFolder ++ "/" ++ pkg.name)) = true
      · rw [if_pos hc]
        dsimp only
        try simp only [Option.map_some, Option.getD_some]
        exact notBoth_core options pkg.name D0 V0 n _
          (truthy V0 pkg.name) (options.dev || truthy V0 pkg.name)
          _ _ _ _ rfl rfl rfl rfl rfl rfl h
      · rw [if_neg hc]
        dsimp only
        rw [hdep, hdev]
        try simp only [Option.getD_some]
        exact h

theorem addOneImpure_notBoth (env : AddEnv) (options : AddPackagesOptions)
    (workingDir : String) (st : AddState) (name version : String)
    (pkg : PackageManifest) (signature : String) (n : String)
    (h : listedInBoth st.manifest n = false) :
    listedInBoth
      (addOneImpure env options workingDir st name version pkg signature).manifest
      n = false := by
  unfold addOneImpure
  by_cases hl : options.link = true
  · simp only [hl, if_true]
    split <;> exact h
  · have hl' : options.link = false := by simpa using hl
    simp only [hl', Bool.false_eq_true, if_false]
    have hm := mutateManifest_notBoth options st.manifest st.updated pkg n h
    rcases hmm : mutateManifest options st.manifest st.updated pkg with ⟨m', u', rv⟩
    rw [hmm] at hm
    split <;> exact hm

theorem addOne_notBoth (env : AddEnv) (options : AddPackagesOptions)
    (wd : String) (doPure : Bool) (st : AddState) (p : String) (n : String)
    (h : listedInBoth st.manifest n = false) :
    listedInBoth (addOne env options wd doPure st p).manifest n = false := by
  unfold addOne
  cases hpp : env.parsePackageName p with
  | mk name version =>
    dsimp only
    generalize (if (version != "") = true then version else env.latestVersion name) = vti
    by_cases h1 : env.existsSync (getPackageStoreDir name) = false
    · simp [h1, h]
    · simp only [Bool.not_eq_false] at h1
      simp only [h1, Bool.not_true, Bool.false_eq_true, if_false]
      by_cases h2 : env.existsSync (getPackageStoreVersionDir name vti) = false
      · simp [h2, h]
      · simp only [Bool.not_eq_false] at h2
        simp only [h2, Bool.not_true, Bool.false_eq_true, if_false]
        cases env.readPackage (getPackageStoreVersionDir name vti) with
        | none => exact h
        | some pkg =>
          cases doPure with
          | true => exact h
          | false =>
            simp only [Bool.false_eq_true, if_false]
            exact addOneImpure_notBoth env options wd st name version pkg _ n h

theorem foldl_addOne_notBoth (env : AddEnv) (options : AddPackagesOptions)
    (wd : String) (doPure : Bool) (packages : List String) :
    ∀ (st : AddState) (n : String), listedInBoth st.manifest n = false →
      listedInBoth
        ((packages.foldl (addOne env options wd doPure) st)).manifest n = false := by
  induction packages with
  | nil => intro st n h; exact h
  | cons p rest ih =>
    intro st n h
    rw [List.foldl_cons]
    exact ih _ n (addOne_notBoth env options wd doPure st p n h)

/-- **C4** (counterexample).  The claim fails when the consumer manifest
already lists the package in both fields: adding `foo` to a consumer whose
manifest has `foo` in `dependencies` (`2.0.0`) and `devDependencies`
(`1.0.0`) succeeds (one InstallResult) yet leaves `foo` listed in both
fields — the code writes the locator into `devDependencies` and, because
`whereToAdd === whereToRemove`, never deletes the `dependencies` entry. -/
theorem c4_counterexample :
    (addPackages (mkAddEnv consumerBoth "other") ["foo"] optsC).map (fun r =>
      (r.installs.length, listedInBoth r.manifest "foo",
        alookup (r.manifest.dependencies.getD []) "foo",
        alookup (r.manifest.devDependencies.getD []) "foo")) =
    Option.some (1, true, Option.some "2.0.0",
      Option.some "file:.yalc/foo") := by decide

/-- **C4** (corrected).  The add never *introduces* a double listing: for
every package name not already effectively listed (with a non-empty value)
in both `dependencies` and `devDependencies` of the consumer manifest, the
name is not listed in both after the batch.  A pre-existing double listing,
however, is not cleaned up (see the counterexample). -/
theorem c4_no_new_double_listing (env : AddEnv) (packages : List String)
    (options : AddPackagesOptions) (r : AddResult) (wd : String)
    (localPkg : PackageManifest) (n : String)
    (hfind : env.findPackage options.workingDir = Option.some wd)
    (hread : env.readPackage wd = Option.some localPkg)
    (hr : addPackages env packages options = Option.some r)
    (h : listedInBoth localPkg n = false) :
    listedInBoth r.manifest n = false := by
  obtain ⟨wd', localPkg', hfind', hread', rfl⟩ :=
    addPackages_some_inv env packages options r hr
  rw [hfind] at hfind'
  injection hfind' with hwd
  subst hwd
  rw [hread] at hread'
  injection hread' with hlp
  subst hlp
  unfold addResultOf
  dsimp only
  exact foldl_addOne_notBoth env options wd (doPureOf options localPkg)
    packages _ n h

theorem c4_no_new_double_listing_witness :
    listedInBoth consumerPlain "foo" = false ∧
    listedInBoth (addResultOf (mkAddEnv consumerPlain "other") ["foo"] optsC
      "/c" consumerPlain).manifest "foo" = false :=
  ⟨by decide,
    c4_no_new_double_listing (mkAddEnv consumerPlain "other") ["foo"] optsC
      (addResultOf (mkAddEnv consumerPlain "other") ["foo"] optsC "/c" consumerPlain)
      "/c" consumerPlain "foo" (by decide) (by decide) (by decide) (by decide)⟩

/-! ## Claim C6 -/

/-- One non-pure loop iteration with matching signatures contributes no
install result and no file-system mutation, whatever the options are. -/
theorem addOne_signature_skip (env : AddEnv) (options : AddPackagesOptions)
    (wd : String) (st : AddState) (p name version vti : String)
    (pkg : PackageManifest)
    (hparse : env.parsePackageName p = (name, version))
    (hvti : (if (version != "") = true then version
      else env.latestVersion name) = vti)
    (h1 : env.existsSync (getPackageStoreDir name) = true)
    (h2 : env.existsSync (getPackageStoreVersionDir name vti) = true)
    (hpkg : env.readPackage (getPackageStoreVersionDir name vti) =
      Option.some pkg)
    (hsig : env.readSignatureFile (getPackageStoreVersionDir name vti) =
      env.readSignatureFile (joinPath wd (joinPath yalcPackagesFolder name))) :
    ((addOne env options wd false st p).installs = st.installs) ∧
    ((addOne env options wd false st p).events = st.events) := by
  unfold addOne
  rw [hparse]
  dsimp only
  rw [hvti, h1, h2]
  simp only [Bool.not_true, Bool.false_eq_true, if_false]
  rw [hpkg]
  dsimp only
  try simp only [Bool.false_eq_true, if_false]
  unfold addOneImpure
  rcases hE : (if options.link = true then (st.manifest, st.updated, "")
      else mutateManifest options st.manifest st.updated pkg) with ⟨m', u', rv⟩
  rw [hsig]
  dsimp only
  rw [if_pos (beq_self_eq_true _)]
  exact ⟨rfl, rfl⟩

/-- **C6** (counterexample).  `AddPackagesOptions` has no `force` option at
all: at a consumer whose staged copy of `foo` has the store signature, every
one of the 32 combinations of the five boolean options (with `pure: false`)
skips the package — content is never replaced and no InstallResult is
produced — so no option makes the add replace content on a signature match,
contradicting the claim's "when force is set the content is replaced". -/
theorem c6_counterexample :
    (mkAddEnv consumerPlain "sig1").readSignatureFile fooStoreDir =
      (mkAddEnv consumerPlain "sig1").readSignatureFile "/c/.yalc/foo" ∧
    allOptionCombos.length = 32 ∧
    allOptionCombos.all (fun o =>
      match addPackages (mkAddEnv consumerPlain "sig1") ["foo"] o with
      | Option.some r => r.installs.isEmpty &&
          (r.events.filter isFsMutation).isEmpty
      | Option.none => false) = true := by
  refine ⟨by decide, by decide, by decide⟩

/-- **C6** (corrected).  In every non-pure add, if the staged copy's
signature equals the store signature the package is unconditionally treated
as already up to date — no content replacement, no InstallResult, hence no
lockfile entry and no installation-registry record.  `addPackages` has no
`force` option, so no option setting can override the skip. -/
theorem c6_signature_skip (env : AddEnv) (options : AddPackagesOptions)
    (r : AddResult) (wd : String) (localPkg : PackageManifest)
    (p name version vti : String) (pkg : PackageManifest)
    (hfind : env.findPackage options.workingDir = Option.some wd)
    (hread : env.readPackage wd = Option.some localPkg)
    (hr : addPackages env [p] options = Option.some r)
    (hpure : doPureOf options localPkg = false)
    (hparse : env.parsePackageName p = (name, version))
    (hvti : (if (version != "") = true then version
      else env.latestVersion name) = vti)
    (h1 : env.existsSync (getPackageStoreDir name) = true)
    (h2 : env.existsSync (getPackageStoreVersionDir name vti) = true)
    (hpkg : env.readPackage (getPackageStoreVersionDir name vti) =
      Option.some pkg)
    (hsig : env.readSignatureFile (getPackageStoreVersionDir name vti) =
      env.readSignatureFile (joinPath wd (joinPath yalcPackagesFolder name))) :
    r.installs = [] ∧ r.lockfile = [] ∧ r.installations = [] ∧
    r.events.filter isFsMutation = [] := by
  obtain ⟨wd', localPkg', hfind', hread', rfl⟩ :=
    addPackages_some_inv env [p] options r hr
  rw [hfind] at hfind'
  injection hfind' with hwd
  subst hwd
  rw [hread] at hread'
  injection hread' with hlp
  subst hlp
  unfold addResultOf
  dsimp only
  rw [hpure]
  rw [List.foldl_cons, List.foldl_nil]
  obtain ⟨hi, he⟩ := addOne_signature_skip env options wd
    { manifest := localPkg, updated := false, installs := [], events := [] }
    p name version vti pkg hparse hvti h1 h2 hpkg hsig
  rw [hi, he]
  refine ⟨rfl, rfl, rfl, ?_⟩
  rw [List.filter_append]
  cases options.yarn <;> simp [isFsMutation]

theorem c6_signature_skip_witness :
    doPureOf ({ optsC with pure := Option.some false }) consumerPlain = false ∧
    (mkAddEnv consumerPlain "sig1").readSignatureFile fooStoreDir =
      (mkAddEnv consumerPlain "sig1").readSignatureFile "/c/.yalc/foo" ∧
    ((addResultOf (mkAddEnv consumerPlain "sig1") ["foo"]
        { optsC with pure := Option.some false } "/c" consumerPlain).installs
      = [] ∧
     (addResultOf (mkAddEnv consumerPlain "sig1") ["foo"]
        { optsC with pure := Option.some false } "/c" consumerPlain).lockfile
      = [] ∧
     (addResultOf (mkAddEnv consumerPlain "sig1") ["foo"]
        { optsC with pure := Option.some false } "/c" consumerPlain).installations
      = [] ∧
     (addResultOf (mkAddEnv consumerPlain "sig1") ["foo"]
        { optsC with pure := Option.some false } "/c" consumerPlain).events.filter
        isFsMutation = []) :=
  ⟨by decide, by decide,
    c6_signature_skip (mkAddEnv consumerPlain "sig1")
      { optsC with pure := Option.some false }
      (addResultOf (mkAddEnv consumerPlain "sig1") ["foo"]
        { optsC with pure := Option.some false } "/c" consumerPlain)
      "/c" consumerPlain "foo" "foo" "" "1.0.0" fooStoreMan
      (by decide) (by decide) (by decide) (by decide) (by decide) (by decide)
      (by decide) (by decide) (by decide) (by decide)⟩

/-! ## Claim C10 -/

theorem map_const_getD (o : Option (List (String × String))) :
    o.map (fun _ => o.getD []) = o := by cases o <;> rfl

/-- The mutation block in the plain-dependency case: the target field gets
the locator, `localPkgUpdated` is set, and the old value is recorded. -/
theorem mutateManifest_deps_case (options : AddPackagesOptions)
    (m : PackageManifest) (u : Bool) (pkg : PackageManifest)
    (la : String) (d : List (String × String))
    (hdev : options.dev = false)
    (hla : ((if options.linkDep then "link:" else "file:") ++
      yalcPackagesFolder ++ "/" ++ pkg.name) = la)
    (hdeps : m.dependencies = Option.some d)
    (hdevval : truthy (m.devDependencies.getD []) pkg.name = false)
    (hdiff : (((alookup d pkg.name).getD "") != la) = true) :
    mutateManifest options m u pkg =
      ({ m with dependencies := Option.some (aset d pkg.name la) }, true,
        (alookup d pkg.name).getD "") := by
  unfold mutateManifest
  dsimp only
  rw [hla, hdeps]
  try simp only [Option.getD_some]
  rw [hdevval, hdev]
  simp only [Bool.false_eq_true, if_false, Bool.or_false, bne_self_eq_false,
    Bool.and_false, Bool.false_and, Bool.not_false, Bool.and_true]
  rw [if_pos hdiff]
  rw [map_const_getD]
  rfl

theorem addOne_skip_mutates_manifest (env : AddEnv)
    (options : AddPackagesOptions) (wd : String) (st : AddState)
    (p name version vti : String) (pkg : PackageManifest) (la : String)
    (d : List (String × String))
    (hparse : env.parsePackageName p = (name, version))
    (hvti : (if (version != "") = true then version
      else env.latestVersion name) = vti)
    (h1 : env.existsSync (getPackageStoreDir name) = true)
    (h2 : env.existsSync (getPackageStoreVersionDir name vti) = true)
    (hpkg : env.readPackage (getPackageStoreVersionDir name vti) =
      Option.some pkg)
    (hlink : options.link = false)
    (hdev : options.dev = false)
    (hla : ((if options.linkDep then "link:" else "file:") ++
      yalcPackagesFolder ++ "/" ++ pkg.name) = la)
    (hdeps : st.manifest.dependencies = Option.some d)
    (hdevval : truthy (st.manifest.devDependencies.getD []) pkg.name = false)
    (hdiff : (((alookup d pkg.name).getD "") != la) = true)
    (hsig : env.readSignatureFile (getPackageStoreVersionDir name vti) =
      env.readSignatureFile (joinPath wd (joinPath yalcPackagesFolder name))) :
    ((addOne env options wd false st p).updated = true) ∧
    (alookup (((addOne env options wd false st p).manifest.dependencies).getD [])
      pkg.name = Option.some la) ∧
    ((addOne env options wd false st p).installs = st.installs) ∧
    ((addOne env options wd false st p).events = st.events) := by
  unfold addOne
  rw [hparse]
  dsimp only
  rw [hvti, h1, h2]
  simp only [Bool.not_true, Bool.false_eq_true, if_false]
  rw [hpkg]
  dsimp only
  try simp only [Bool.false_eq_true, if_false]
  unfold addOneImpure
  rw [hlink]
  try simp only [Bool.false_eq_true, if_false]
  rw [mutateManifest_deps_case options st.manifest st.updated pkg la d
    hdev hla hdeps hdevval hdiff]
  rw [hsig]
  dsimp only
  rw [if_pos (beq_self_eq_true _)]
  refine ⟨rfl, ?_, rfl, rfl⟩
  dsimp only
  try simp only [Option.getD_some]
  exact alookup_aset_self d pkg.name la

/-- **C10** (counterexample).  When the consumer manifest has *no*
`dependencies` object at all, the "current value differs, signature equal"
situation still sets `localPkgUpdated` and rewrites the manifest at the end
of the batch — but *without* the new locator: the assignment went to the
fresh object `localPkg.dependencies || {}` and is lost, so the written
manifest still has no dependency entry, refuting "the manifest is rewritten
with the new locator". -/
theorem c10_counterexample :
    (addPackages (mkAddEnv consumerBare "sig1") ["foo"] optsC).map (fun r =>
      (r.manifestWritten, r.manifest.dependencies,
        r.manifest.devDependencies, r.installs.length)) =
    Option.some (true, Option.none, Option.none, 0) := by rfl

/-- **C10** (corrected).  The already-up-to-date skip is indeed not atomic
with the manifest: when the dependency-field value differs from the locator
but the staged signature equals the store signature, the batch still ends
with `writePackage` (`manifestWritten`), and — provided the targeted
`dependencies` object exists in the manifest — the field now holds the new
locator, even though the package contributes no InstallResult, no lockfile
entry and no installation-registry record, and no staging content is
replaced.  (When the field object is absent the locator assignment lands on
a fresh object and is lost; see the counterexample.) -/
theorem c10_skip_still_rewrites_manifest (env : AddEnv)
    (options : AddPackagesOptions) (r : AddResult) (wd : String)
    (localPkg : PackageManifest) (p name version vti : String)
    (pkg : PackageManifest) (la : String) (d : List (String × String))
    (hfind : env.findPackage options.workingDir = Option.some wd)
    (hread : env.readPackage wd = Option.some localPkg)
    (hr : addPackages env [p] options = Option.some r)
    (hpure : doPureOf options localPkg = false)
    (hparse : env.parsePackageName p = (name, version))
    (hvti : (if (version != "") = true then version
      else env.latestVersion name) = vti)
    (h1 : env.existsSync (getPackageStoreDir name) = true)
    (h2 : env.existsSync (getPackageStoreVersionDir name vti) = true)
    (hpkg : env.readPackage (getPackageStoreVersionDir name vti) =
      Option.some pkg)
    (hlink : options.link = false)
    (hdev : options.dev = false)
    (hla : ((if options.linkDep then "link:" else "file:") ++
      yalcPackagesFolder ++ "/" ++ pkg.name) = la)
    (hdeps : localPkg.dependencies = Option.some d)
    (hdevval : truthy (localPkg.devDependencies.getD []) pkg.name = false)
    (hdiff : (((alookup d pkg.name).getD "") != la) = true)
    (hsig : env.readSignatureFile (getPackageStoreVersionDir name vti) =
      env.readSignatureFile (joinPath wd (joinPath yalcPackagesFolder name))) :
    r.manifestWritten = true ∧
    alookup ((r.manifest.dependencies).getD []) pkg.name = Option.some la ∧
    r.installs = [] ∧ r.lockfile = [] ∧ r.installations = [] ∧
    r.events.filter isFsMutation = [] := by
  obtain ⟨wd', localPkg', hfind', hread', rfl⟩ :=
    addPackages_some_inv env [p] options r hr
  rw [hfind] at hfind'
  injection hfind' with hwd
  subst hwd
  rw [hread] at hread'
  injection hread' with hlp
  subst hlp
  unfold addResultOf
  dsimp only
  rw [hpure]
  rw [List.foldl_cons, List.foldl_nil]
  obtain ⟨hu, hm, hi, he⟩ := addOne_skip_mutates_manifest env options wd
    { manifest := localPkg, updated := false, installs := [], events := [] }
    p name version vti pkg la d hparse hvti h1 h2 hpkg hlink hdev hla hdeps
    hdevval hdiff hsig
  rw [hu, hi, he]
  refine ⟨rfl, hm, rfl, rfl, rfl, ?_⟩
  rw [List.filter_append]
  cases options.yarn <;> simp [isFsMutation]

theorem c10_skip_still_rewrites_manifest_witness :
    ((alookup [("foo", "^1.0.0")] "foo").getD "" != "file:.yalc/foo") = true ∧
    (mkAddEnv consumerPlain "sig1").readSignatureFile fooStoreDir =
      (mkAddEnv consumerPlain "sig1").readSignatureFile "/c/.yalc/foo" ∧
    ((addResultOf (mkAddEnv consumerPlain "sig1") ["foo"]
      { optsC with pure := Option.some false } "/c" consumerPlain).manifestWritten
        = true ∧
      alookup (((addResultOf (mkAddEnv consumerPlain "sig1") ["foo"]
        { optsC with pure := Option.some false } "/c"
        consumerPlain).manifest.dependencies).getD []) "foo" =
        Option.some "file:.yalc/foo" ∧
      (addResultOf (mkAddEnv consumerPlain "sig1") ["foo"]
        { optsC with pure := Option.some false } "/c" consumerPlain).installs
        = [] ∧
      (addResultOf (mkAddEnv consumerPlain "sig1") ["foo"]
        { optsC with pure := Option.some false } "/c" consumerPlain).lockfile
        = [] ∧
      (addResultOf (mkAddEnv consumerPlain "sig1") ["foo"]
        { optsC with pure := Option.some false } "/c" consumerPlain).installations
        = [] ∧
      (addResultOf (mkAddEnv consumerPlain "sig1") ["foo"]
        { optsC with pure := Option.some false } "/c"
        consumerPlain).events.filter isFsMutation = []) :=
  ⟨by decide, by decide,
    c10_skip_still_rewrites_manifest (mkAddEnv consumerPlain "sig1")
      { optsC with pure := Option.some false }
      (addResultOf (mkAddEnv consumerPlain "sig1") ["foo"]
        { optsC with pure := Option.some false } "/c" consumerPlain)
      "/c" consumerPlain "foo" "foo" "" "1.0.0" fooStoreMan "file:.yalc/foo"
      [("foo", "^1.0.0")]
      (by decide) (by decide) (by decide) (by decide) (by decide) (by decide)
      (by decide) (by decide) (by decide) (by decide) (by decide) (by decide)
      (by decide) (by decide) (by decide) (by decide)⟩

/-! ## Claim C5 -/

/-- **C5** (confirmed).  Publishing a package whose manifest has
`private: true` without the `--private` override aborts as a guarded no-op
with a user-visible message: the result carries only the abort message, the
store equals the initial store, and no script run, store write, recursive
publish, `addPackages` call or push is recorded. -/
theorem c5_private_guard (env : PubEnv) (options : PublishPackageOptions)
    (fuel : Nat) (wd : String) (pkg : PackageManifest)
    (hfind : env.findPackage options.workingDir = Option.some wd)
    (hread : readPackage env wd = Option.some pkg)
    (hpriv : pkg.privateFlag = true) (hopt : options.privateFlag = false) :
    publishPackage env options fuel =
      ({ store := env.initialStore, events := [Ev.privateAbort] },
       Outcome.ok ()) := by
  unfold publishPackage
  rw [hfind]
  dsimp only
  rw [hread]
  dsimp only
  rw [hpriv, hopt]
  rfl

theorem c5_private_guard_witness :
    envP.findPackage "/p" = Option.some "/p" ∧
    readPackage envP "/p" = Option.some manP ∧
    manP.privateFlag = true ∧
    ({ workingDir := "/p", push := true } : PublishPackageOptions).privateFlag
      = false ∧
    publishPackage envP { workingDir := "/p", push := true } 2 =
      ({ store := [], events := [Ev.privateAbort] }, Outcome.ok ()) :=
  ⟨by decide, by decide, by decide, by decide,
    c5_private_guard envP { workingDir := "/p", push := true } 2 "/p" manP
      (by decide) (by decide) (by decide) (by decide)⟩

/-! ## Claim C7 -/

/-- **C7** (confirmed).  Pure mode is the explicit `pure` option when given
and otherwise defaults to the consumer's `workspaces` flag; and whenever
pure mode is in effect the whole batch performs no manifest mutation (the
manifest is returned unchanged and `writePackage` never runs) and no
staging / `node_modules` / `.bin` mutation for any package. -/
theorem c7_pure_mode (env : AddEnv) (packages : List String)
    (options : AddPackagesOptions) (r : AddResult)
    (hr : addPackages env packages options = Option.some r) :
    ∃ wd localPkg, env.findPackage options.workingDir = Option.some wd ∧
      env.readPackage wd = Option.some localPkg ∧
      r.doPure = (match options.pure with
        | Option.some b => b
        | Option.none => localPkg.workspaces) ∧
      (r.doPure = true →
        r.manifest = localPkg ∧ r.manifestWritten = false ∧
        r.events.filter isFsMutation = []) := by
  obtain ⟨wd, localPkg, hfp, hrp, rfl⟩ :=
    addPackages_some_inv env packages options r hr
  refine ⟨wd, localPkg, hfp, hrp, ?_, ?_⟩
  · show doPureOf options localPkg = _
    unfold doPureOf
    cases hp : options.pure with
    | none => simp
    | some b => cases b <;> simp
  · intro hd
    have hd' : doPureOf options localPkg = true := hd
    unfold addResultOf
    dsimp only
    rw [hd']
    obtain ⟨h1, h2, h3⟩ := foldl_addOne_pure env options wd packages
      { manifest := localPkg, updated := false, installs := [], events := [] }
    refine ⟨h1, h2, ?_⟩
    rw [List.filter_append, h3]
    cases options.yarn <;> simp [isFsMutation]

theorem c7_pure_mode_witness :
    (addPackages (mkAddEnv { consumerBare with workspaces := true } "other")
        ["foo"] optsC).isSome = true ∧
    ∃ wd localPkg,
      (mkAddEnv { consumerBare with workspaces := true } "other").findPackage
        optsC.workingDir = Option.some wd ∧
      (mkAddEnv { consumerBare with workspaces := true } "other").readPackage wd =
        Option.some localPkg ∧
      (addResultOf (mkAddEnv { consumerBare with workspaces := true } "other")
        ["foo"] optsC "/c"
        { consumerBare with workspaces := true }).doPure =
        (match optsC.pure with
          | Option.some b => b
          | Option.none => localPkg.workspaces) ∧
      ((addResultOf (mkAddEnv { consumerBare with workspaces := true } "other")
          ["foo"] optsC "/c"
          { consumerBare with workspaces := true }).doPure = true →
        (addResultOf (mkAddEnv { consumerBare with workspaces := true } "other")
          ["foo"] optsC "/c"
          { consumerBare with workspaces := true }).manifest = localPkg ∧
        (addResultOf (mkAddEnv { consumerBare with workspaces := true } "other")
          ["foo"] optsC "/c"
          { consumerBare with workspaces := true }).manifestWritten = false ∧
        (addResultOf (mkAddEnv { consumerBare with workspaces := true } "other")
          ["foo"] optsC "/c"
          { consumerBare with workspaces := true }).events.filter isFsMutation
          = []) :=
  ⟨by decide,
    c7_pure_mode (mkAddEnv { consumerBare with workspaces := true } "other")
      ["foo"] optsC
      (addResultOf (mkAddEnv { consumerBare with workspaces := true } "other")
        ["foo"] optsC "/c" { consumerBare with workspaces := true })
      (by decide)⟩

/-! ## Basic facts about the publish engine -/

theorem publishedNamesOf_append (a b : List Ev) :
    publishedNamesOf (a ++ b) = publishedNamesOf a ++ publishedNamesOf b :=
  List.filterMap_append a b _

theorem publishedNamesOf_eq_nil (d : List Ev)
    (h : ∀ e ∈ d, isPublishingEv e = false) : publishedNamesOf d = [] := by
  unfold publishedNamesOf
  rw [List.filterMap_eq_nil_iff]
  intro e he
  have hp := h e he
  cases e <;> first | rfl | (unfold isPublishingEv at hp; cases hp)

theorem firstScript_mem (scripts : List (String × String)) (names : List String)
    (s : String) (h : firstScript scripts names = Option.some s) : s ∈ names := by
  unfold firstScript at h
  cases hf : names.filter (fun n => truthy scripts n) with
  | nil => rw [hf] at h; cases h
  | cons a t =>
    rw [hf] at h
    simp only [List.head?_cons, Option.some.injEq] at h
    subst h
    have ha : a ∈ names.filter (fun n => truthy scripts n) := by
      rw [hf]; exact List.mem_cons_self a t
    exact (List.mem_filter.1 ha).1

theorem postName_not_pre (s : String) (h : s ∈ postScriptNames) :
    preScriptNames.contains s = false := by
  simp only [postScriptNames, List.mem_cons, List.mem_singleton,
    List.not_mem_nil, or_false] at h
  rcases h with rfl | rfl <;> decide

theorem contains_of_mem (l : List String) (a : String) (h : a ∈ l) :
    l.contains a = true := by simpa using h

theorem runScriptStep_spec (env : PubEnv) (pkgDir : String)
    (scripts : List (String × String)) (names : List String) (st : St) :
    ((runScriptStep env pkgDir scripts names st).1.store = st.store) ∧
    ((runScriptStep env pkgDir scripts names st).2 ≠ Outcome.fuel) ∧
    ∃ d, ((runScriptStep env pkgDir scripts names st).1.events = st.events ++ d) ∧
      ∀ e ∈ d, ∃ s, e = Ev.runScript pkgDir s ∧ s ∈ names := by
  unfold runScriptStep
  cases hf : firstScript scripts names with
  | none =>
    dsimp only
    exact ⟨rfl, by simp, [], by simp, by simp⟩
  | some s =>
    dsimp only
    have hs := firstScript_mem scripts names s hf
    split
    · refine ⟨rfl, by simp, [Ev.runScript pkgDir s], rfl, ?_⟩
      intro e he
      rw [List.mem_singleton] at he
      exact ⟨s, he, hs⟩
    · refine ⟨rfl, by simp, [Ev.runScript pkgDir s], rfl, ?_⟩
      intro e he
      rw [List.mem_singleton] at he
      exact ⟨s, he, hs⟩

theorem copyPackageToStore_spec (env : PubEnv) (options : PublishPackageOptions)
    (pkg : PackageManifest) (pkgDir : String) (st : St) :
    ∃ d, ((copyPackageToStore env options pkg pkgDir st).1.events = st.events ++ d) ∧
      (∀ e ∈ d, e = Ev.storeWrite pkg.name pkg.version) := by
  unfold copyPackageToStore
  dsimp only
  split
  · exact ⟨[], by simp, by simp⟩
  · refine ⟨[Ev.storeWrite pkg.name pkg.version], rfl, ?_⟩
    intro e he
    rw [List.mem_singleton] at he
    exact he

/-- In change-detection mode with the store signature equal to the current
content signature, `publishRest` is a no-op on the store: no copy, no
post-publish script, just the skip message. -/
theorem publishRest_unchanged (env : PubEnv) (options : PublishPackageOptions)
    (pkg : PackageManifest) (pkgDir : String) (scriptRunCmd : Bool)
    (scripts : List (String × String)) (st : St)
    (h1 : options.changed = true)
    (h2 : storeLookup st.store pkg.name pkg.version =
      Option.some (env.contentSig pkgDir)) :
    publishRest env options pkg pkgDir scriptRunCmd scripts st =
      ({ st with events := st.events ++ [Ev.skipUnchanged pkg.name] },
        Outcome.ok ()) := by
  unfold publishRest copyPackageToStore
  rw [h1, h2]
  simp

/-- `publishRest` appends only store writes, skip messages and post-family
script runs — never a pre-family script, never a publication marker — and
never exhausts fuel. -/
theorem publishRest_spec (env : PubEnv) (options : PublishPackageOptions)
    (pkg : PackageManifest) (pkgDir : String) (scriptRunCmd : Bool)
    (scripts : List (String × String)) (st : St) :
    ∃ d, ((publishRest env options pkg pkgDir scriptRunCmd scripts st).1.events =
        st.events ++ d) ∧
      (∀ e ∈ d, isPreScriptEv e = false ∧ isPublishingEv e = false) ∧
      ((publishRest env options pkg pkgDir scriptRunCmd scripts st).2 ≠
        Outcome.fuel) := by
  unfold publishRest
  obtain ⟨dc, hc1, hc2⟩ := copyPackageToStore_spec env options pkg pkgDir st
  rcases hcopy : copyPackageToStore env options pkg pkgDir st with ⟨st1, copyRes⟩
  rw [hcopy] at hc1
  dsimp only at hc1 ⊢
  have hcW : ∀ e ∈ dc, isPreScriptEv e = false ∧ isPublishingEv e = false := by
    intro e he
    rw [hc2 e he]
    exact ⟨rfl, rfl⟩
  split
  · -- change-detection early return
    refine ⟨dc ++ [Ev.skipUnchanged pkg.name],
      by rw [hc1, List.append_assoc], ?_, by simp⟩
    intro e he
    rcases List.mem_append.1 he with he | he
    · exact hcW e he
    · rw [List.mem_singleton.1 he]
      exact ⟨rfl, rfl⟩
  · -- post-publish script
    cases scriptRunCmd with
    | false =>
      exact ⟨dc, hc1, hcW, by simp⟩
    | true =>
      obtain ⟨hs_store, hs_fuel, dp, hp1, hp2⟩ :=
        runScriptStep_spec env pkgDir scripts postScriptNames st1
      rcases hrun : runScriptStep env pkgDir scripts postScriptNames st1
        with ⟨st2, out⟩
      try rw [hrun] at hp1 hs_fuel
      have hall : ∀ e ∈ dc ++ dp,
          isPreScriptEv e = false ∧ isPublishingEv e = false := by
        intro e he
        rcases List.mem_append.1 he with he | he
        · exact hcW e he
        · obtain ⟨s, rfl, hsmem⟩ := hp2 e he
          refine ⟨?_, rfl⟩
          show preScriptNames.contains s = false
          exact postName_not_pre s hsmem
      cases out with
      | ok a =>
        refine ⟨dc ++ dp, ?_, hall, ?_⟩
        · show st2.events = st.events ++ (dc ++ dp)
          exact hp1.trans (by rw [hc1, List.append_assoc])
        · show (Outcome.ok () : Outcome Unit) ≠ Outcome.fuel
          simp
      | fuel =>
        exact absurd rfl hs_fuel
      | script d n =>
        refine ⟨dc ++ dp, ?_, hall, ?_⟩
        · show st2.events = st.events ++ (dc ++ dp)
          exact hp1.trans (by rw [hc1, List.append_assoc])
        · show (Outcome.script d n : Outcome Unit) ≠ Outcome.fuel
          simp

/-- The inner `publish` appends no publication marker and never exhausts
fuel. -/
theorem publish_spec (env : PubEnv) (options : PublishPackageOptions)
    (pkg : PackageManifest) (pkgDir : String) (st : St) :
    ∃ d, ((publish env options pkg pkgDir st).1.events = st.events ++ d) ∧
      publishedNamesOf d = [] ∧
      ((publish env options pkg pkgDir st).2 ≠ Outcome.fuel) := by
  unfold publish
  dsimp only
  cases hcmd : (!options.force && pkg.scripts.isSome) with
  | false =>
    obtain ⟨dr, hr1, hr2, hr3⟩ := publishRest_spec env options pkg pkgDir
      false (pkg.scripts.getD []) st
    exact ⟨dr, hr1, publishedNamesOf_eq_nil dr (fun e he => (hr2 e he).2), hr3⟩
  | true =>
    obtain ⟨hs_store, hs_fuel, dp, hp1, hp2⟩ :=
      runScriptStep_spec env pkgDir (pkg.scripts.getD []) preScriptNames st
    rcases hrun : runScriptStep env pkgDir (pkg.scripts.getD [])
      preScriptNames st with ⟨st1, out⟩
    try rw [hrun] at hp1 hs_fuel
    have hdp : publishedNamesOf dp = [] := by
      apply publishedNamesOf_eq_nil
      intro e he
      obtain ⟨s, rfl, _⟩ := hp2 e he
      rfl
    cases out with
    | ok a =>
      obtain ⟨dr, hr1, hr2, hr3⟩ := publishRest_spec env options pkg pkgDir
        true (pkg.scripts.getD []) st1
      refine ⟨dp ++ dr, ?_, ?_, ?_⟩
      · show (publishRest env options pkg pkgDir true (pkg.scripts.getD [])
            st1).1.events = st.events ++ (dp ++ dr)
        exact hr1.trans (by
          have : st1.events = st.events ++ dp := hp1
          rw [this, List.append_assoc])
      · rw [publishedNamesOf_append, hdp,
          publishedNamesOf_eq_nil dr (fun e he => (hr2 e he).2)]
        rfl
      · show (publishRest env options pkg pkgDir true (pkg.scripts.getD [])
            st1).2 ≠ Outcome.fuel
        exact hr3
    | fuel =>
      exact absurd rfl hs_fuel
    | script d n =>
      refine ⟨dp, ?_, hdp, ?_⟩
      · show st1.events = st.events ++ dp
        exact hp1
      · show (Outcome.script d n : Outcome Unit) ≠ Outcome.fuel
        simp

/-- When the pre-publish family has a first match and scripts are not
force-skipped, `publish` runs exactly that script first and then continues
(or aborts) according to its exit status. -/
theorem publish_eq_of_pre (env : PubEnv) (options : PublishPackageOptions)
    (pkg : PackageManifest) (pkgDir : String) (st : St)
    (scripts : List (String × String)) (sname : String)
    (hps : pkg.scripts = Option.some scripts)
    (hforce : options.force = false)
    (hfirst : firstScript scripts preScriptNames = Option.some sname) :
    publish env options pkg pkgDir st =
      (if env.scriptOk pkgDir sname then
        publishRest env options pkg pkgDir true scripts
          { st with events := st.events ++ [Ev.runScript pkgDir sname] }
      else
        ({ st with events := st.events ++ [Ev.runScript pkgDir sname] },
          Outcome.script pkgDir sname)) := by
  unfold publish runScriptStep
  rw [hps, hforce]
  simp only [Option.getD_some, Option.isSome_some, Bool.not_false,
    Bool.and_self, eq_self_iff_true, if_true]
  rw [hfirst]
  by_cases hok : env.scriptOk pkgDir sname = true
  · simp only [hok, if_true]
  · have hok2 : env.scriptOk pkgDir sname = false := by
      simpa using hok
    simp only [hok2, Bool.false_eq_true, if_false]

/-! ## Claim C8 -/

/-- **C8** (confirmed).  When scripts are not force-skipped and some script
of the pre-publish family is declared, exactly one pre-publish script is
run, namely the first present among `preyalc`, `prepare`, `prepublishOnly`,
`prepublish`, it runs in the package directory, it is the first recorded
action of the single-package publish (in particular it precedes the store
copy), and a failing run aborts the publish with no further action (no
store write, no post-publish script). -/
theorem c8_prepublish_script (env : PubEnv) (options : PublishPackageOptions)
    (pkg : PackageManifest) (pkgDir : String) (st : St) (sname : String)
    (hforce : options.force = false)
    (hfirst : firstScript (pkg.scripts.getD []) preScriptNames =
      Option.some sname) :
    ∃ d, ((publish env options pkg pkgDir st).1.events = st.events ++ d) ∧
      d.head? = Option.some (Ev.runScript pkgDir sname) ∧
      (d.filter isPreScriptEv).length = 1 ∧
      (env.scriptOk pkgDir sname = false →
        d = [Ev.runScript pkgDir sname] ∧
        (publish env options pkg pkgDir st).2 = Outcome.script pkgDir sname) := by
  have hmem := firstScript_mem (pkg.scripts.getD []) preScriptNames sname hfirst
  have hpre : isPreScriptEv (Ev.runScript pkgDir sname) = true := by
    show preScriptNames.contains sname = true
    exact contains_of_mem _ _ hmem
  cases hps : pkg.scripts with
  | none =>
    rw [hps] at hfirst
    simp [firstScript, truthy, alookup] at hfirst
  | some scripts =>
    have hfirst2 : firstScript scripts preScriptNames = Option.some sname := by
      rw [hps] at hfirst
      simpa using hfirst
    rw [publish_eq_of_pre env options pkg pkgDir st scripts sname hps hforce
      hfirst2]
    cases hok : env.scriptOk pkgDir sname with
    | false =>
      rw [if_neg (show ¬((false : Bool) = true) from by simp)]
      refine ⟨[Ev.runScript pkgDir sname], rfl, rfl, ?_, fun _ => ⟨rfl, rfl⟩⟩
      rw [List.filter_cons]
      simp only [hpre, if_true]
      rfl
    | true =>
      rw [if_pos (show (true : Bool) = true from rfl)]
      obtain ⟨dr, hr1, hr2, _⟩ := publishRest_spec env options pkg pkgDir
        true scripts
        { st with events := st.events ++ [Ev.runScript pkgDir sname] }
      refine ⟨Ev.runScript pkgDir sname :: dr, ?_, rfl, ?_, ?_⟩
      · exact hr1.trans (by
          show (st.events ++ [Ev.runScript pkgDir sname]) ++ dr =
            st.events ++ Ev.runScript pkgDir sname :: dr
          rw [List.append_assoc]
          rfl)
      · rw [List.filter_cons]
        simp only [hpre, if_true]
        have hnil : dr.filter isPreScriptEv = [] := by
          rw [List.filter_eq_nil_iff]
          intro e he
          rw [(hr2 e he).1]
          exact fun hcon => by cases hcon
        rw [hnil]
        rfl
      · exact fun hcon => absurd hcon (by decide)

/-- Witness for `c8_prepublish_script`: package `s` declares `prepare` and
`prepublish`; `prepare` is the first match of the priority list, it fails
under `envS`, and the publish aborts with exactly that one script event. -/
theorem c8_prepublish_script_witness :
    ({ workingDir := "/s" } : PublishPackageOptions).force = false ∧
    firstScript (manS.scripts.getD []) preScriptNames =
      Option.some "prepare" ∧
    ∃ d, ((publish envS { workingDir := "/s" } manS "/s"
        { store := envS.initialStore, events := [] }).1.events = [] ++ d) ∧
      d.head? = Option.some (Ev.runScript "/s" "prepare") ∧
      (d.filter isPreScriptEv).length = 1 ∧
      (envS.scriptOk "/s" "prepare" = false →
        d = [Ev.runScript "/s" "prepare"] ∧
        (publish envS { workingDir := "/s" } manS "/s"
          { store := envS.initialStore, events := [] }).2 =
          Outcome.script "/s" "prepare") :=
  ⟨rfl, by decide,
    c8_prepublish_script envS { workingDir := "/s" } manS "/s"
      { store := envS.initialStore, events := [] } "prepare" rfl (by decide)⟩

/-! ## Claim C1 -/

/-- The push fold only appends events: membership is preserved. -/
theorem push_fold_events_mono (name : String) (dirs : List String) (st : St)
    (e : Ev) (he : e ∈ st.events) :
    e ∈ (dirs.foldl (fun s d =>
      { s with events := s.events ++ [Ev.push name d] }) st).events := by
  induction dirs generalizing st with
  | nil => exact he
  | cons d rest ih =>
    exact ih { st with events := st.events ++ [Ev.push name d] }
      (List.mem_append_left _ he)

/-- Every registered installation directory gets its push event. -/
theorem push_fold_mem (name : String) (dirs : List String) (st : St)
    (dir : String) (h : dir ∈ dirs) :
    Ev.push name dir ∈ (dirs.foldl (fun s d =>
      { s with events := s.events ++ [Ev.push name d] }) st).events := by
  induction dirs generalizing st with
  | nil => cases h
  | cons d rest ih =>
    rcases List.mem_cons.mp h with h1 | h2
    · subst h1
      exact push_fold_events_mono name rest
        { st with events := st.events ++ [Ev.push name dir] }
        (Ev.push name dir)
        (List.mem_append_right _ (List.mem_singleton.mpr rfl))
    · exact ih _ h2

/-- **C1** counterexample.  Package `r` is already in the store with its
current signature; `publishPackage` with `{ changed := true, push := true }`
does leave the store untouched and logs the skip — but the push loop still
runs: `Ev.push "r" "/c1"` is in the trace, refuting "no push to registered
consumers is triggered". -/
theorem c1_counterexample :
    (publishPackage envR optsChangedPush 2).1.store = envR.initialStore ∧
    Ev.push "r" "/c1" ∈ (publishPackage envR optsChangedPush 2).1.events ∧
    (publishPackage envR optsChangedPush 2).1.events =
      [Ev.publishing "r", Ev.skipUnchanged "r", Ev.push "r" "/c1"] := by
  decide

/-- **C1** (corrected).  With change detection on and the signature equal to
the stored one, the single-package publish is a no-op — the store is
untouched, the only new event is the skip log (so no store write and no
post-publish script), and the outcome is success — but the push to
registered consumers is NOT suppressed: it lives in `publishPackage` after
`publishDepthFirst` returns, guarded only by the push options, so every
registered consumer still receives a push event. -/
theorem c1_unchanged_skip_but_push (env : PubEnv)
    (options : PublishPackageOptions) (pkg rootPkg : PackageManifest)
    (pkgDir workingDir dir : String) (cmd : Bool)
    (scripts : List (String × String)) (st stf : St) (v : List String)
    (fuel : Nat)
    (hch : options.changed = true)
    (hsig : storeLookup st.store pkg.name pkg.version =
      Option.some (env.contentSig pkgDir))
    (hfind : env.findPackage options.workingDir = Option.some workingDir)
    (hread : readPackage env workingDir = Option.some rootPkg)
    (hpriv : rootPkg.privateFlag = false)
    (hpush : options.push = true)
    (hdf : publishDepthFirst env options fuel [] rootPkg workingDir
      { store := env.initialStore, events := [] } = (stf, Outcome.ok v))
    (hdir : dir ∈ env.installations rootPkg.name) :
    (publishRest env options pkg pkgDir cmd scripts st).1.store = st.store ∧
    (publishRest env options pkg pkgDir cmd scripts st).1.events =
      st.events ++ [Ev.skipUnchanged pkg.name] ∧
    (publishRest env options pkg pkgDir cmd scripts st).2 = Outcome.ok () ∧
    Ev.push rootPkg.name dir ∈ (publishPackage env options fuel).1.events := by
  have hcopy : copyPackageToStore env options pkg pkgDir st = (st, false) := by
    unfold copyPackageToStore
    rw [hch, hsig]
    simp
  have hrest : publishRest env options pkg pkgDir cmd scripts st =
      ({ st with events := st.events ++ [Ev.skipUnchanged pkg.name] },
       Outcome.ok ()) := by
    unfold publishRest
    rw [hcopy]
    dsimp only
    rw [hch]
    simp
  refine ⟨by rw [hrest], by rw [hrest], by rw [hrest], ?_⟩
  unfold publishPackage
  rw [hfind]
  try dsimp only
  rw [hread]
  try dsimp only
  rw [if_neg (by rw [hpriv]; simp)]
  rw [hdf]
  try dsimp only
  rw [if_pos (by rw [hpush]; simp)]
  try dsimp only
  by_cases hlen : ((env.installations rootPkg.name).foldl
      (fun acc d => acc ++ env.updateRemovals d) []).length != 0
  · rw [if_pos hlen]
    exact List.mem_append_left _
      (push_fold_mem rootPkg.name (env.installations rootPkg.name) stf dir hdir)
  · rw [if_neg hlen]
    exact push_fold_mem rootPkg.name (env.installations rootPkg.name) stf dir hdir

/-- Witness for `c1_unchanged_skip_but_push`: the envR scenario of the
counterexample instantiates every hypothesis. -/
theorem c1_unchanged_skip_but_push_witness :
    optsChangedPush.changed = true ∧
    storeLookup envR.initialStore manR.name manR.version =
      Option.some (envR.contentSig "/r") ∧
    "/c1" ∈ envR.installations manR.name ∧
    ((publishRest envR optsChangedPush manR "/r" false []
        { store := envR.initialStore, events := [] }).1.store =
      envR.initialStore ∧
    (publishRest envR optsChangedPush manR "/r" false []
        { store := envR.initialStore, events := [] }).1.events =
      [] ++ [Ev.skipUnchanged manR.name] ∧
    (publishRest envR optsChangedPush manR "/r" false []
        { store := envR.initialStore, events := [] }).2 = Outcome.ok () ∧
    Ev.push manR.name "/c1" ∈ (publishPackage envR optsChangedPush 2).1.events) :=
  ⟨rfl, by decide, by decide,
    c1_unchanged_skip_but_push envR optsChangedPush manR manR "/r" "/r" "/c1"
      false [] { store := envR.initialStore, events := [] }
      { store := envR.initialStore,
        events := [Ev.publishing "r", Ev.skipUnchanged "r"] } ["r"] 2
      rfl (by decide) rfl (by decide) rfl rfl (by decide) (by decide)⟩

/-! ## Claim C9 -/

/-- A dependency that fails the qualification test (not a symlink, target
containing a `/.yalc/` segment, unreadable manifest, or private) is skipped
by the dependency loop. -/
theorem depLoop_skip (env : PubEnv)
    (r : List String → PackageManifest → String → St → St × Outcome (List String))
    (pkgDir name : String) (rest visited acc : List String) (st : St)
    (h : qualifiesDep env pkgDir name = Option.none) :
    depLoop env r pkgDir (name :: rest) visited acc st =
      depLoop env r pkgDir rest visited acc st := by
  unfold qualifiesDep at h
  conv_lhs => unfold depLoop
  try dsimp only at h
  try dsimp only
  cases hlt : env.linkTarget (joinPath (joinPath pkgDir "node_modules") name) with
  | none => rfl
  | some target =>
    rw [hlt] at h
    try dsimp only at h
    try dsimp only
    by_cases hy : includesYalcDir target = true
    · rw [if_pos hy]
    · rw [if_neg hy] at h
      rw [if_neg hy]
      cases hrp : readPackage env (joinPath (joinPath pkgDir "node_modules") name) with
      | none => rfl
      | some dep =>
        rw [hrp] at h
        try dsimp only at h
        try dsimp only
        by_cases hpf : dep.privateFlag = true
        · rw [if_pos hpf]
        · rw [if_neg hpf] at h
          exact Option.noConfusion h

/-- A qualifying dependency is recursed into; the recursion is handed the
current visited set and state, and each possible outcome is threaded. -/
theorem depLoop_enter (env : PubEnv)
    (r : List String → PackageManifest → String → St → St × Outcome (List String))
    (pkgDir name : String) (rest visited acc : List String) (st : St)
    (dep : PackageManifest)
    (h : qualifiesDep env pkgDir name = Option.some dep) :
    depLoop env r pkgDir (name :: rest) visited acc st =
      (match r visited dep (joinPath (joinPath pkgDir "node_modules") name) st with
        | (st2, Outcome.ok v2) =>
            depLoop env r pkgDir rest v2 (acc ++ [dep.name]) st2
        | (st2, Outcome.fuel) => (st2, Outcome.fuel)
        | (st2, Outcome.script d n) => (st2, Outcome.script d n)) := by
  unfold qualifiesDep at h
  conv_lhs => unfold depLoop
  try dsimp only at h
  try dsimp only
  cases hlt : env.linkTarget (joinPath (joinPath pkgDir "node_modules") name) with
  | none =>
    rw [hlt] at h
    try dsimp only at h
    exact Option.noConfusion h
  | some target =>
    rw [hlt] at h
    try dsimp only at h
    try dsimp only
    by_cases hy : includesYalcDir target = true
    · rw [if_pos hy] at h
      exact Option.noConfusion h
    · rw [if_neg hy] at h
      rw [if_neg hy]
      cases hrp : readPackage env (joinPath (joinPath pkgDir "node_modules") name) with
      | none =>
        rw [hrp] at h
        try dsimp only at h
        exact Option.noConfusion h
      | some dep0 =>
        rw [hrp] at h
        try dsimp only at h
        try dsimp only
        by_cases hpf : dep0.privateFlag = true
        · rw [if_pos hpf] at h
          exact Option.noConfusion h
        · rw [if_neg hpf] at h
          rw [if_neg hpf]
          injection h with h
          subst h
          rfl

/-- Qualification with a successful recursion: the loop continues on the
updated visited set and records the dependency's manifest name. -/
theorem depLoop_enter_ok (env : PubEnv)
    (r : List String → PackageManifest → String → St → St × Outcome (List String))
    (pkgDir name : String) (rest visited acc : List String) (st : St)
    (dep : PackageManifest) (st2 : St) (v2 : List String)
    (h : qualifiesDep env pkgDir name = Option.some dep)
    (hr : r visited dep (joinPath (joinPath pkgDir "node_modules") name) st =
      (st2, Outcome.ok v2)) :
    depLoop env r pkgDir (name :: rest) visited acc st =
      depLoop env r pkgDir rest v2 (acc ++ [dep.name]) st2 := by
  rw [depLoop_enter env r pkgDir name rest visited acc st dep h, hr]

/-- The `namesToAdd` list a successful dependency loop hands to
`addPackages` is exactly the qualifying dependency names, in order. -/
theorem depLoop_namesToAdd (env : PubEnv)
    (r : List String → PackageManifest → String → St → St × Outcome (List String))
    (pkgDir : String) :
    ∀ (names visited acc : List String) (st st1 : St) (v1 out : List String),
      depLoop env r pkgDir names visited acc st = (st1, Outcome.ok (v1, out)) →
      out = acc ++ qualNames env pkgDir names := by
  intro names
  induction names with
  | nil =>
    intro visited acc st st1 v1 out h
    unfold depLoop at h
    injection h with h1 h2
    injection h2 with h2
    injection h2 with h2a h2b
    rw [← h2b]
    simp [qualNames]
  | cons name rest ih =>
    intro visited acc st st1 v1 out h
    cases hq : qualifiesDep env pkgDir name with
    | none =>
      rw [depLoop_skip env r pkgDir name rest visited acc st hq] at h
      rw [ih visited acc st st1 v1 out h]
      simp [qualNames, List.filterMap_cons, hq]
    | some dep =>
      rw [depLoop_enter env r pkgDir name rest visited acc st dep hq] at h
      rcases hr : r visited dep (joinPath (joinPath pkgDir "node_modules") name) st
        with ⟨st2, o⟩
      rw [hr] at h
      cases o with
      | ok v2 =>
        try dsimp only at h
        rw [ih v2 (acc ++ [dep.name]) st2 st1 v1 out h]
        simp [qualNames, List.filterMap_cons, hq]
      | fuel =>
        try dsimp only at h
        injection h with h1 h2
        exact Outcome.noConfusion h2
      | script d n =>
        try dsimp only at h
        injection h with h1 h2
        exact Outcome.noConfusion h2

/-- `publishSelf` first logs the publication marker, then runs the inner
`publish`, which only appends further events. -/
theorem publishSelf_events (env : PubEnv) (options : PublishPackageOptions)
    (pkg : PackageManifest) (pkgDir : String) (visited : List String) (st : St) :
    ∃ d, (publishSelf env options pkg pkgDir visited st).1.events =
      (st.events ++ [Ev.publishing pkg.name]) ++ d := by
  unfold publishSelf
  try dsimp only
  obtain ⟨dp, hdp, _, _⟩ := publish_spec env options pkg pkgDir
    { st with events := st.events ++ [Ev.publishing pkg.name] }
  rcases hpub : publish env options pkg pkgDir
    { st with events := st.events ++ [Ev.publishing pkg.name] } with ⟨stP, o⟩
  rw [hpub] at hdp
  cases o with
  | ok a => exact ⟨dp, hdp⟩
  | fuel => exact ⟨dp, hdp⟩
  | script d n => exact ⟨dp, hdp⟩

/-- A successful recursive `publishDepthFirst` step on a fresh package with
dependencies: the loop's trace comes first, then the re-add of the
qualifying names to the current project, then the package's own
publication. -/
theorem pdf_order (env : PubEnv) (options : PublishPackageOptions)
    (fuel : Nat) (pubNames : List String) (pkg : PackageManifest)
    (pkgDir : String) (deps : List (String × String)) (st st1 st' : St)
    (v1 names v : List String)
    (hrec : options.recursive = true)
    (hdeps : pkg.dependencies = Option.some deps)
    (hnv : pubNames.contains pkg.name = false)
    (hloop : depLoop env (publishDepthFirst env options fuel) pkgDir
      (deps.map (fun p => p.1)) (pkg.name :: pubNames) [] st =
      (st1, Outcome.ok (v1, names)))
    (hres : publishDepthFirst env options (Nat.succ fuel) pubNames pkg pkgDir st =
      (st', Outcome.ok v)) :
    names = qualNames env pkgDir (deps.map (fun p => p.1)) ∧
    ∃ d, st'.events =
      (st1.events ++ [Ev.addPkgs names pkgDir, Ev.publishing pkg.name]) ++ d := by
  have hnames := depLoop_namesToAdd env (publishDepthFirst env options fuel)
    pkgDir (deps.map (fun p => p.1)) (pkg.name :: pubNames) [] st st1 v1 names hloop
  simp only [List.nil_append] at hnames
  refine ⟨hnames, ?_⟩
  unfold publishDepthFirst at hres
  rw [hnv] at hres
  rw [if_neg (show ¬((false : Bool) = true) from by simp)] at hres
  try dsimp only at hres
  rw [hrec] at hres
  rw [if_pos (show (true : Bool) = true from rfl)] at hres
  rw [hdeps] at hres
  try dsimp only at hres
  rw [hloop] at hres
  try dsimp only at hres
  obtain ⟨dp, hdp⟩ := publishSelf_events env options pkg pkgDir v1
    { st1 with events := st1.events ++ [Ev.addPkgs names pkgDir] }
  rw [hres] at hdp
  try dsimp only at hdp
  refine ⟨dp, ?_⟩
  rw [hdp]
  simp [List.append_assoc]

/-- **C9** counterexample.  Under `envC9x` the dependency `b` of `/proj` is
a symlink to `/other/.yalc/b` — another project's staging folder, so NOT
this consumer's own (`pointsIntoOwnStaging` is false); its manifest is
readable and not private; recursion is enabled.  The spec's "if and only
if" then demands `b` be recursively published, but the code's
`target.includes(YALC_DIR)` substring test rejects any target containing
`/.yalc/`, and only the root is published. -/
theorem c9_counterexample :
    envC9x.linkTarget "/proj/node_modules/b" = Option.some "/other/.yalc/b" ∧
    pointsIntoOwnStaging "/proj" "/other/.yalc/b" = false ∧
    readPackage envC9x "/proj/node_modules/b" = Option.some manB9 ∧
    manB9.privateFlag = false ∧
    optsC9x.recursive = true ∧
    publishedNamesOf (publishPackage envC9x optsC9x 3).1.events = ["root9"] := by
  decide

/-- **C9** (corrected).  During recursive publish a direct dependency is
recursed into iff its `node_modules` entry is a symlink whose readlink
target does not contain a `/.yalc/` path segment ANYWHERE (the code's
substring test — not merely "this consumer's own staging folder") and the
linked manifest is readable and not private (`qualifiesDep`): a
non-qualifying name is skipped, a qualifying one is recursed into with the
threaded visited set and its manifest name recorded; on success the
qualifying names are re-added to the current project (`Ev.addPkgs`) and
only then is the package itself published (`Ev.publishing`), the loop's
`namesToAdd` being exactly the qualifying names in order. -/
theorem c9_dep_recursion (env : PubEnv) (options : PublishPackageOptions)
    (r : List String → PackageManifest → String → St → St × Outcome (List String))
    (pkgDir : String) :
    (∀ name rest visited acc st,
      qualifiesDep env pkgDir name = Option.none →
      depLoop env r pkgDir (name :: rest) visited acc st =
        depLoop env r pkgDir rest visited acc st) ∧
    (∀ name rest visited acc st dep st2 v2,
      qualifiesDep env pkgDir name = Option.some dep →
      r visited dep (joinPath (joinPath pkgDir "node_modules") name) st =
        (st2, Outcome.ok v2) →
      depLoop env r pkgDir (name :: rest) visited acc st =
        depLoop env r pkgDir rest v2 (acc ++ [dep.name]) st2) ∧
    (∀ fuel pubNames pkg deps st st1 st' v1 names v,
      options.recursive = true →
      pkg.dependencies = Option.some deps →
      pubNames.contains pkg.name = false →
      depLoop env (publishDepthFirst env options fuel) pkgDir
        (deps.map (fun p => p.1)) (pkg.name :: pubNames) [] st =
        (st1, Outcome.ok (v1, names)) →
      publishDepthFirst env options (Nat.succ fuel) pubNames pkg pkgDir st =
        (st', Outcome.ok v) →
      names = qualNames env pkgDir (deps.map (fun p => p.1)) ∧
      ∃ d, st'.events =
        (st1.events ++ [Ev.addPkgs names pkgDir, Ev.publishing pkg.name]) ++ d) :=
  ⟨fun name rest visited acc st h =>
    depLoop_skip env r pkgDir name rest visited acc st h,
   fun name rest visited acc st dep st2 v2 h hr =>
    depLoop_enter_ok env r pkgDir name rest visited acc st dep st2 v2 h hr,
   fun fuel pubNames pkg deps st st1 st' v1 names v hrec hdeps hnv hloop hres =>
    pdf_order env options fuel pubNames pkg pkgDir deps st st1 st' v1 names v
      hrec hdeps hnv hloop hres⟩

/-- Witness for `c9_dep_recursion` at the A↔B cycle environment: `zzz`
(no symlink) is skipped, `b` qualifies and is recursed into, and the
successful root step re-adds `["b"]` before publishing `a`. -/
theorem c9_dep_recursion_witness :
    (depLoop envAB (publishDepthFirst envAB optsAB 2) "/a" ["zzz"] ["a"] []
        { store := [], events := [] } =
      depLoop envAB (publishDepthFirst envAB optsAB 2) "/a" [] ["a"] []
        { store := [], events := [] }) ∧
    (depLoop envAB (publishDepthFirst envAB optsAB 2) "/a" ["b"] ["a"] []
        { store := [], events := [] } =
      depLoop envAB (publishDepthFirst envAB optsAB 2) "/a" [] ["b", "a"]
        ([] ++ [manB.name])
        { store := [(("b", "1.0.0"), "sig-/a/node_modules/b")],
          events := [Ev.addPkgs ["a"] "/a/node_modules/b", Ev.publishing "b",
                     Ev.storeWrite "b" "1.0.0"] }) ∧
    (["b"] = qualNames envAB "/a"
        ([("b", "file:.yalc/b")].map (fun p => p.1)) ∧
     ∃ d,
       (({ store := [(("b", "1.0.0"), "sig-/a/node_modules/b"),
                     (("a", "1.0.0"), "sig-/a")],
           events := [Ev.addPkgs ["a"] "/a/node_modules/b", Ev.publishing "b",
                      Ev.storeWrite "b" "1.0.0", Ev.addPkgs ["b"] "/a",
                      Ev.publishing "a", Ev.storeWrite "a" "1.0.0"] } : St).events =
         (({ store := [(("b", "1.0.0"), "sig-/a/node_modules/b")],
             events := [Ev.addPkgs ["a"] "/a/node_modules/b", Ev.publishing "b",
                        Ev.storeWrite "b" "1.0.0"] } : St).events ++
           [Ev.addPkgs ["b"] "/a", Ev.publishing manA.name]) ++ d)) := by
  obtain ⟨h1, h2, h3⟩ := c9_dep_recursion envAB optsAB
    (publishDepthFirst envAB optsAB 2) "/a"
  refine ⟨h1 "zzz" [] ["a"] []
            { store := [], events := [] } (by decide),
          h2 "b" [] ["a"] []
            { store := [], events := [] } manB
            { store := [(("b", "1.0.0"), "sig-/a/node_modules/b")],
              events := [Ev.addPkgs ["a"] "/a/node_modules/b", Ev.publishing "b",
                         Ev.storeWrite "b" "1.0.0"] }
            ["b", "a"] (by decide) (by decide),
          h3 2 [] manA [("b", "file:.yalc/b")]
            { store := [], events := [] }
            { store := [(("b", "1.0.0"), "sig-/a/node_modules/b")],
              events := [Ev.addPkgs ["a"] "/a/node_modules/b", Ev.publishing "b",
                         Ev.storeWrite "b" "1.0.0"] }
            { store := [(("b", "1.0.0"), "sig-/a/node_modules/b"),
                        (("a", "1.0.0"), "sig-/a")],
              events := [Ev.addPkgs ["a"] "/a/node_modules/b", Ev.publishing "b",
                         Ev.storeWrite "b" "1.0.0", Ev.addPkgs ["b"] "/a",
                         Ev.publishing "a", Ev.storeWrite "a" "1.0.0"] }
            ["b", "a"] ["b"] ["b", "a"]
            rfl rfl rfl (by decide) (by decide)⟩

/-! ## Claim C2 -/

theorem contains_true_iff (l : List String) (a : String) :
    l.contains a = true ↔ a ∈ l := List.elem_iff

/-- A qualifying dependency's manifest is what `readPackage` returned. -/
theorem qualifiesDep_readPackage (env : PubEnv) (pkgDir name : String)
    (dep : PackageManifest) (h : qualifiesDep env pkgDir name = Option.some dep) :
    readPackage env (joinPath (joinPath pkgDir "node_modules") name) =
      Option.some dep := by
  unfold qualifiesDep at h
  try dsimp only at h
  cases hlt : env.linkTarget (joinPath (joinPath pkgDir "node_modules") name) with
  | none =>
    rw [hlt] at h
    try dsimp only at h
    exact Option.noConfusion h
  | some target =>
    rw [hlt] at h
    try dsimp only at h
    by_cases hy : includesYalcDir target = true
    · rw [if_pos hy] at h
      exact Option.noConfusion h
    · rw [if_neg hy] at h
      cases hrp : readPackage env (joinPath (joinPath pkgDir "node_modules") name) with
      | none =>
        rw [hrp] at h
        try dsimp only at h
        exact Option.noConfusion h
      | some dep0 =>
        rw [hrp] at h
        try dsimp only at h
        by_cases hpf : dep0.privateFlag = true
        · rw [if_pos hpf] at h
          exact Option.noConfusion h
        · rw [if_neg hpf] at h
          injection h with h
          rw [h]

/-- A manifest delivered by `readPackage` contributes its name to the
environment's finite name table. -/
theorem readPackage_name_mem (env : PubEnv) (d : String) (pkg : PackageManifest)
    (h : readPackage env d = Option.some pkg) : pkg.name ∈ envNames env := by
  unfold readPackage at h
  cases hf : env.manifests.find? (fun p => p.1 == d) with
  | none =>
    rw [hf] at h
    exact Option.noConfusion h
  | some entry =>
    rw [hf] at h
    try dsimp only at h
    injection h with h
    have hmem := List.mem_of_find?_eq_some hf
    rw [← h]
    exact List.mem_map.mpr ⟨entry, hmem, rfl⟩

/-- A larger visited set leaves no more package names unvisited. -/
theorem newEnvCount_le (env : PubEnv) (visited v : List String)
    (hsub : ∀ n, n ∈ visited → n ∈ v) :
    newEnvCount env v ≤ newEnvCount env visited := by
  unfold newEnvCount
  apply List.Sublist.length_le
  apply List.monotone_filter_right
  intro a ha
  simp only [Bool.not_eq_true'] at ha ⊢
  cases hvc : visited.contains a with
  | false => rfl
  | true =>
    have : v.contains a = true :=
      (contains_true_iff v a).mpr (hsub a ((contains_true_iff visited a).mp hvc))
    rw [this] at ha
    exact ha

/-- Visiting a fresh package name of the environment strictly shrinks the
unvisited-names measure. -/
theorem newEnvCount_lt (env : PubEnv) (visited : List String) (a : String)
    (hmem : a ∈ envNames env) (hnc : visited.contains a = false) :
    newEnvCount env (a :: visited) < newEnvCount env visited := by
  unfold newEnvCount
  have hsubl : List.Sublist
      ((envNames env).dedup.filter (fun n => !(a :: visited).contains n))
      ((envNames env).dedup.filter (fun n => !visited.contains n)) := by
    apply List.monotone_filter_right
    intro b hb
    simp only [Bool.not_eq_true'] at hb ⊢
    cases hv : visited.contains b with
    | false => rfl
    | true =>
      have : (a :: visited).contains b = true :=
        (contains_true_iff _ _).mpr
          (List.mem_cons_of_mem a ((contains_true_iff _ _).mp hv))
      rw [this] at hb
      exact Bool.noConfusion hb
  apply Nat.lt_of_le_of_ne hsubl.length_le
  intro heq
  have hequal := hsubl.eq_of_length heq
  have haR : a ∈ (envNames env).dedup.filter (fun n => !visited.contains n) := by
    apply List.mem_filter.mpr
    refine ⟨List.mem_dedup.mpr hmem, ?_⟩
    rw [hnc]
    rfl
  have haL : a ∉ (envNames env).dedup.filter (fun n => !(a :: visited).contains n) := by
    intro hcon
    have hp := (List.mem_filter.mp hcon).2
    have hac : (a :: visited).contains a = true :=
      (contains_true_iff _ _).mpr (List.mem_cons_self a visited)
    rw [hac] at hp
    exact Bool.noConfusion hp
  rw [hequal] at haL
  exact haL haR

/-- A successful `publishSelf` returns its visited set unchanged and appends
the publication marker followed by marker-free inner-publish events. -/
theorem publishSelf_ok (env : PubEnv) (options : PublishPackageOptions)
    (pkg : PackageManifest) (pkgDir : String) (vis : List String) (st st' : St)
    (v : List String)
    (h : publishSelf env options pkg pkgDir vis st = (st', Outcome.ok v)) :
    v = vis ∧ ∃ dp, st'.events = (st.events ++ [Ev.publishing pkg.name]) ++ dp ∧
      publishedNamesOf dp = [] := by
  unfold publishSelf at h
  try dsimp only at h
  obtain ⟨dp, hdp, hnil, _⟩ := publish_spec env options pkg pkgDir
    { st with events := st.events ++ [Ev.publishing pkg.name] }
  rcases hpub : publish env options pkg pkgDir
    { st with events := st.events ++ [Ev.publishing pkg.name] } with ⟨stP, o⟩
  rw [hpub] at hdp h
  cases o with
  | ok a =>
    try dsimp only at h
    injection h with h1 h2
    injection h2 with h2
    subst h1
    exact ⟨h2.symm, dp, hdp, hnil⟩
  | fuel =>
    try dsimp only at h
    injection h with h1 h2
    exact Outcome.noConfusion h2
  | script d n =>
    try dsimp only at h
    injection h with h1 h2
    exact Outcome.noConfusion h2

/-- `publishSelf` never exhausts the fuel of the embedding. -/
theorem publishSelf_no_fuel (env : PubEnv) (options : PublishPackageOptions)
    (pkg : PackageManifest) (pkgDir : String) (vis : List String) (st : St) :
    (publishSelf env options pkg pkgDir vis st).2 ≠ Outcome.fuel := by
  unfold publishSelf
  try dsimp only
  obtain ⟨dp, hdp, hnil, hnf⟩ := publish_spec env options pkg pkgDir
    { st with events := st.events ++ [Ev.publishing pkg.name] }
  rcases hpub : publish env options pkg pkgDir
    { st with events := st.events ++ [Ev.publishing pkg.name] } with ⟨stP, o⟩
  rw [hpub] at hnf
  cases o with
  | ok a => exact fun hcon => Outcome.noConfusion hcon
  | fuel => exact absurd rfl hnf
  | script d n => exact fun hcon => Outcome.noConfusion hcon

/-- Publication accounting for the branches that publish the package
directly (no dependency loop, no re-add event). -/
theorem pdf_self_case (env : PubEnv) (options : PublishPackageOptions)
    (pkg : PackageManifest) (pkgDir : String) (visited : List String)
    (st st' : St) (v : List String)
    (hc : ¬ visited.contains pkg.name = true)
    (h : publishSelf env options pkg pkgDir (pkg.name :: visited) st =
      (st', Outcome.ok v)) :
    ∃ d, st'.events = st.events ++ d ∧
      v.Perm (publishedNamesOf d ++ visited) ∧
      (publishedNamesOf d).Nodup ∧
      (∀ n, n ∈ publishedNamesOf d → ¬ n ∈ visited) := by
  obtain ⟨hv, dp, hev, hnil⟩ := publishSelf_ok env options pkg pkgDir
    (pkg.name :: visited) st st' v h
  subst hv
  have e2 : publishedNamesOf [Ev.publishing pkg.name] = [pkg.name] := rfl
  have hP : publishedNamesOf ([Ev.publishing pkg.name] ++ dp) = [pkg.name] := by
    rw [publishedNamesOf_append, hnil, e2, List.append_nil]
  refine ⟨[Ev.publishing pkg.name] ++ dp, ?_, ?_, ?_, ?_⟩
  · rw [hev, List.append_assoc]
  · rw [hP]
    exact List.Perm.refl _
  · rw [hP]
    exact List.nodup_singleton _
  · intro n hn hmem
    rw [hP] at hn
    have hn2 : n = pkg.name := List.mem_singleton.mp hn
    subst hn2
    exact hc ((contains_true_iff _ _).mpr hmem)

/-- Shared tail of the publication-accounting invariant: publishing a fresh
package after its (possibly empty) dependency-loop delta. -/
theorem pdf_loop_case (env : PubEnv) (options : PublishPackageOptions)
    (pkg : PackageManifest) (pkgDir : String)
    (visited vL namesL : List String) (st stL st' : St) (v : List String)
    (dL : List Ev)
    (hc : ¬ visited.contains pkg.name = true)
    (hL1 : stL.events = st.events ++ dL)
    (hLp : vL.Perm (publishedNamesOf dL ++ (pkg.name :: visited)))
    (hLn : (publishedNamesOf dL).Nodup)
    (hLd : ∀ n, n ∈ publishedNamesOf dL → ¬ n ∈ (pkg.name :: visited))
    (h : publishSelf env options pkg pkgDir vL
      { stL with events := stL.events ++ [Ev.addPkgs namesL pkgDir] } =
      (st', Outcome.ok v)) :
    ∃ d, st'.events = st.events ++ d ∧
      v.Perm (publishedNamesOf d ++ visited) ∧
      (publishedNamesOf d).Nodup ∧
      (∀ n, n ∈ publishedNamesOf d → ¬ n ∈ visited) := by
  obtain ⟨hv, dp, hev, hnil⟩ := publishSelf_ok env options pkg pkgDir vL _ st' v h
  subst hv
  have e1 : publishedNamesOf [Ev.addPkgs namesL pkgDir] = [] := rfl
  have e2 : publishedNamesOf [Ev.publishing pkg.name] = [pkg.name] := rfl
  have hP : publishedNamesOf
      (dL ++ ([Ev.addPkgs namesL pkgDir] ++ ([Ev.publishing pkg.name] ++ dp))) =
      publishedNamesOf dL ++ [pkg.name] := by
    rw [publishedNamesOf_append, publishedNamesOf_append, publishedNamesOf_append,
      hnil, e1, e2]
    simp
  refine ⟨dL ++ ([Ev.addPkgs namesL pkgDir] ++ ([Ev.publishing pkg.name] ++ dp)),
    ?_, ?_, ?_, ?_⟩
  · rw [hev]
    try dsimp only
    rw [hL1]
    simp [List.append_assoc]
  · rw [hP, List.append_assoc, List.singleton_append]
    exact hLp
  · rw [hP]
    refine List.Nodup.append hLn (List.nodup_singleton _) ?_
    intro a haL hamem
    have ha : a = pkg.name := List.mem_singleton.mp hamem
    refine hLd a haL ?_
    rw [ha]
    exact List.mem_cons_self _ _
  · intro n hn hmem
    rw [hP] at hn
    rcases List.mem_append.mp hn with h1 | h1
    · exact hLd n h1 (List.mem_cons_of_mem _ hmem)
    · have hn2 : n = pkg.name := List.mem_singleton.mp h1
      subst hn2
      exact hc ((contains_true_iff _ _).mpr hmem)

/-- The dependency loop preserves the publication-accounting invariant:
assuming the recursive call does (parameter `Hrec`), a successful loop's
event delta carries pairwise-distinct publication markers, none already
visited, and the returned visited set is the input plus exactly those
markers. -/
theorem depLoop_invariant (env : PubEnv) (options : PublishPackageOptions)
    (fuel : Nat) (pkgDir : String)
    (Hrec : ∀ (visited : List String) (pkg : PackageManifest) (dDir : String)
      (st st' : St) (v : List String),
      publishDepthFirst env options fuel visited pkg dDir st = (st', Outcome.ok v) →
      ∃ d, st'.events = st.events ++ d ∧
        v.Perm (publishedNamesOf d ++ visited) ∧
        (publishedNamesOf d).Nodup ∧
        (∀ n, n ∈ publishedNamesOf d → ¬ n ∈ visited)) :
    ∀ (names visited acc : List String) (st stL : St) (vL out : List String),
      depLoop env (publishDepthFirst env options fuel) pkgDir names visited acc st =
        (stL, Outcome.ok (vL, out)) →
      ∃ d, stL.events = st.events ++ d ∧
        vL.Perm (publishedNamesOf d ++ visited) ∧
        (publishedNamesOf d).Nodup ∧
        (∀ n, n ∈ publishedNamesOf d → ¬ n ∈ visited) := by
  intro names
  induction names with
  | nil =>
    intro visited acc st stL vL out h
    unfold depLoop at h
    injection h with h1 h2
    injection h2 with h2
    injection h2 with h2a h2b
    refine ⟨[], by rw [← h1]; simp, ?_, by simp [publishedNamesOf], ?_⟩
    · rw [← h2a]
      exact List.Perm.refl _
    · intro n hn
      exact absurd hn (List.not_mem_nil n)
  | cons name rest ih =>
    intro visited acc st stL vL out h
    cases hq : qualifiesDep env pkgDir name with
    | none =>
      rw [depLoop_skip env (publishDepthFirst env options fuel) pkgDir name rest
        visited acc st hq] at h
      exact ih visited acc st stL vL out h
    | some dep =>
      rw [depLoop_enter env (publishDepthFirst env options fuel) pkgDir name rest
        visited acc st dep hq] at h
      rcases hr : publishDepthFirst env options fuel visited dep
        (joinPath (joinPath pkgDir "node_modules") name) st with ⟨st2, o⟩
      rw [hr] at h
      cases o with
      | ok v2 =>
        try dsimp only at h
        obtain ⟨da, ha1, ha2, ha3, ha4⟩ := Hrec visited dep _ st st2 v2 hr
        obtain ⟨db, hb1, hb2, hb3, hb4⟩ := ih v2 (acc ++ [dep.name]) st2 stL vL out h
        refine ⟨da ++ db, ?_, ?_, ?_, ?_⟩
        · rw [hb1, ha1, List.append_assoc]
        · rw [publishedNamesOf_append]
          refine hb2.trans ?_
          refine (List.Perm.append_left _ ha2).trans ?_
          rw [← List.append_assoc]
          exact List.Perm.append_right _ List.perm_append_comm
        · rw [publishedNamesOf_append]
          refine List.Nodup.append ha3 hb3 ?_
          intro a haa hab
          exact hb4 a hab (ha2.mem_iff.mpr (List.mem_append_left _ haa))
        · intro n hn hmem
          rw [publishedNamesOf_append] at hn
          rcases List.mem_append.mp hn with h1 | h1
          · exact ha4 n h1 hmem
          · exact hb4 n h1 (ha2.mem_iff.mpr (List.mem_append_right _ hmem))
      | fuel =>
        try dsimp only at h
        injection h with h1 h2
        exact Outcome.noConfusion h2
      | script d n =>
        try dsimp only at h
        injection h with h1 h2
        exact Outcome.noConfusion h2

/-- Publication accounting for `publishDepthFirst`: on success, the visited
set grows by exactly the publication markers of the event delta, those
markers are pairwise distinct, and none was already visited — each package
name is published at most once per invocation. -/
theorem pdf_invariant (env : PubEnv) (options : PublishPackageOptions) :
    ∀ (fuel : Nat) (visited : List String) (pkg : PackageManifest)
      (pkgDir : String) (st st' : St) (v : List String),
      publishDepthFirst env options fuel visited pkg pkgDir st =
        (st', Outcome.ok v) →
      ∃ d, st'.events = st.events ++ d ∧
        v.Perm (publishedNamesOf d ++ visited) ∧
        (publishedNamesOf d).Nodup ∧
        (∀ n, n ∈ publishedNamesOf d → ¬ n ∈ visited) := by
  intro fuel
  induction fuel with
  | zero =>
    intro visited pkg pkgDir st st' v h
    unfold publishDepthFirst at h
    injection h with h1 h2
    exact Outcome.noConfusion h2
  | succ fuel ih =>
    intro visited pkg pkgDir st st' v h
    unfold publishDepthFirst at h
    by_cases hc : visited.contains pkg.name = true
    · rw [if_pos hc] at h
      injection h with h1 h2
      injection h2 with h2
      refine ⟨[], by rw [← h1]; simp, ?_, by simp [publishedNamesOf], ?_⟩
      · rw [← h2]
        exact List.Perm.refl _
      · intro n hn
        exact absurd hn (List.not_mem_nil n)
    · rw [if_neg hc] at h
      try dsimp only at h
      by_cases hr2 : options.recursive = true
      · rw [if_pos hr2] at h
        cases hdeps : pkg.dependencies with
        | none =>
          rw [hdeps] at h
          try dsimp only at h
          exact pdf_self_case env options pkg pkgDir visited st st' v hc h
        | some deps =>
          rw [hdeps] at h
          try dsimp only at h
          rcases hloop : depLoop env (publishDepthFirst env options fuel) pkgDir
            (deps.map (fun p => p.1)) (pkg.name :: visited) [] st with ⟨stL, oL⟩
          rw [hloop] at h
          cases oL with
          | ok pr =>
            obtain ⟨vL, namesL⟩ := pr
            try dsimp only at h
            obtain ⟨dL, hL1, hLp, hLn, hLd⟩ := depLoop_invariant env options fuel
              pkgDir ih (deps.map (fun p => p.1)) (pkg.name :: visited) [] st stL
              vL namesL hloop
            exact pdf_loop_case env options pkg pkgDir visited vL namesL st stL
              st' v dL hc hL1 hLp hLn hLd h
          | fuel =>
            try dsimp only at h
            injection h with h1 h2
            exact Outcome.noConfusion h2
          | script d n =>
            try dsimp only at h
            injection h with h1 h2
            exact Outcome.noConfusion h2
      · rw [if_neg hr2] at h
        exact pdf_self_case env options pkg pkgDir visited st st' v hc h

/-- Fuel safety of the dependency loop, given fuel safety of the recursive
call at every smaller measure. -/
theorem depLoop_no_fuel (env : PubEnv) (options : PublishPackageOptions)
    (fuel : Nat) (pkgDir : String)
    (Hfuel : ∀ (visited : List String) (pkg : PackageManifest) (dDir : String)
      (st : St), newEnvCount env visited < fuel → pkg.name ∈ envNames env →
      (publishDepthFirst env options fuel visited pkg dDir st).2 ≠ Outcome.fuel) :
    ∀ (names visited acc : List String) (st : St),
      newEnvCount env visited < fuel →
      (depLoop env (publishDepthFirst env options fuel) pkgDir names visited acc
        st).2 ≠ Outcome.fuel := by
  intro names
  induction names with
  | nil =>
    intro visited acc st hm
    unfold depLoop
    exact fun hcon => Outcome.noConfusion hcon
  | cons name rest ih =>
    intro visited acc st hm
    cases hq : qualifiesDep env pkgDir name with
    | none =>
      rw [depLoop_skip env (publishDepthFirst env options fuel) pkgDir name rest
        visited acc st hq]
      exact ih visited acc st hm
    | some dep =>
      rw [depLoop_enter env (publishDepthFirst env options fuel) pkgDir name rest
        visited acc st dep hq]
      have hdn : dep.name ∈ envNames env :=
        readPackage_name_mem env _ dep (qualifiesDep_readPackage env pkgDir name dep hq)
      rcases hr : publishDepthFirst env options fuel visited dep
        (joinPath (joinPath pkgDir "node_modules") name) st with ⟨st2, o⟩
      try rw [hr]
      cases o with
      | ok v2 =>
        try dsimp only
        have hv2 : newEnvCount env v2 ≤ newEnvCount env visited := by
          obtain ⟨d, _, hperm, _, _⟩ := pdf_invariant env options fuel visited dep
            (joinPath (joinPath pkgDir "node_modules") name) st st2 v2 hr
          exact newEnvCount_le env visited v2
            (fun n hn => hperm.mem_iff.mpr (List.mem_append_right _ hn))
        exact ih v2 (acc ++ [dep.name]) st2 (lt_of_le_of_lt hv2 hm)
      | fuel =>
        have := Hfuel visited dep (joinPath (joinPath pkgDir "node_modules") name)
          st hm hdn
        rw [hr] at this
        exact absurd rfl this
      | script d n =>
        try dsimp only
        exact fun hcon => Outcome.noConfusion hcon

/-- Termination: with fuel beyond the number of yet-unvisited distinct
package names, the depth-first publish never exhausts it. -/
theorem pdf_no_fuel (env : PubEnv) (options : PublishPackageOptions) :
    ∀ (fuel : Nat) (visited : List String) (pkg : PackageManifest)
      (pkgDir : String) (st : St),
      newEnvCount env visited < fuel → pkg.name ∈ envNames env →
      (publishDepthFirst env options fuel visited pkg pkgDir st).2 ≠
        Outcome.fuel := by
  intro fuel
  induction fuel with
  | zero =>
    intro visited pkg pkgDir st hm
    exact absurd hm (Nat.not_lt_zero _)
  | succ fuel ih =>
    intro visited pkg pkgDir st hm hpk
    unfold publishDepthFirst
    by_cases hc : visited.contains pkg.name = true
    · rw [if_pos hc]
      exact fun hcon => Outcome.noConfusion hcon
    · rw [if_neg hc]
      try dsimp only
      have hmlt : newEnvCount env (pkg.name :: visited) < fuel := by
        have hdec := newEnvCount_lt env visited pkg.name hpk (by
          cases hcc : visited.contains pkg.name with
          | false => rfl
          | true => exact absurd hcc hc)
        exact Nat.lt_of_lt_of_le hdec (Nat.lt_succ_iff.mp hm)
      by_cases hr2 : options.recursive = true
      · rw [if_pos hr2]
        cases hdeps : pkg.dependencies with
        | none =>
          try dsimp only
          exact publishSelf_no_fuel env options pkg pkgDir _ st
        | some deps =>
          try dsimp only
          rcases hloop : depLoop env (publishDepthFirst env options fuel) pkgDir
            (deps.map (fun p => p.1)) (pkg.name :: visited) [] st with ⟨stL, oL⟩
          try rw [hloop]
          cases oL with
          | ok pr =>
            obtain ⟨vL, namesL⟩ := pr
            try dsimp only
            exact publishSelf_no_fuel env options pkg pkgDir _ _
          | fuel =>
            have := depLoop_no_fuel env options fuel pkgDir ih
              (deps.map (fun p => p.1)) (pkg.name :: visited) [] st hmlt
            rw [hloop] at this
            exact absurd rfl this
          | script d n =>
            try dsimp only
            exact fun hcon => Outcome.noConfusion hcon
      · rw [if_neg hr2]
        exact publishSelf_no_fuel env options pkg pkgDir _ st

/-- **C2** (confirmed).  With fuel exceeding the number of distinct package
names of the environment, the depth-first publish from an empty visited set
terminates (never exhausts fuel); on success the publication markers of the
trace are pairwise distinct — each name published at most once — and the
final visited set is exactly those markers; in the concrete A↔B cycle each
of `a` and `b` is published exactly once. -/
theorem c2_termination_once (env : PubEnv) (options : PublishPackageOptions)
    (pkg : PackageManifest) (pkgDir : String) (fuel : Nat) (s0 : Store)
    (st' : St) (v : List String)
    (hfuel : ((envNames env).dedup).length < fuel)
    (hpk : pkg.name ∈ envNames env) :
    ((publishDepthFirst env options fuel [] pkg pkgDir
        { store := s0, events := [] }).2 ≠ Outcome.fuel) ∧
    (publishDepthFirst env options fuel [] pkg pkgDir
        { store := s0, events := [] } = (st', Outcome.ok v) →
      (publishedNamesOf st'.events).Nodup ∧
      v.Perm (publishedNamesOf st'.events)) ∧
    publishedNamesOf (publishPackage envAB optsAB 3).1.events = ["b", "a"] ∧
    (publishedNamesOf (publishPackage envAB optsAB 3).1.events).count "a" = 1 ∧
    (publishedNamesOf (publishPackage envAB optsAB 3).1.events).count "b" = 1 := by
  have h0 : newEnvCount env [] = ((envNames env).dedup).length := by
    unfold newEnvCount
    congr 1
    apply List.filter_eq_self.mpr
    intro a ha
    rfl
  refine ⟨pdf_no_fuel env options fuel [] pkg pkgDir _ (by rw [h0]; exact hfuel) hpk,
    ?_, by decide, by decide, by decide⟩
  intro h
  obtain ⟨d, h1, h2, h3, _⟩ := pdf_invariant env options fuel [] pkg pkgDir _ st' v h
  have hd : st'.events = d := by
    rw [h1]
    rfl
  constructor
  · rw [hd]
    exact h3
  · rw [hd]
    simpa using h2

/-- Witness for `c2_termination_once` at the A↔B cycle: two distinct names,
fuel 3, root `a`; the run succeeds, publishes `a` and `b` exactly once each
and returns the visited set `["b", "a"]`. -/
theorem c2_termination_once_witness :
    (((envNames envAB).dedup).length < 3 ∧ manA.name ∈ envNames envAB ∧
     publishDepthFirst envAB optsAB 3 [] manA "/a" { store := [], events := [] } =
       ({ store := [(("b", "1.0.0"), "sig-/a/node_modules/b"),
                    (("a", "1.0.0"), "sig-/a")],
          events := [Ev.addPkgs ["a"] "/a/node_modules/b", Ev.publishing "b",
                     Ev.storeWrite "b" "1.0.0", Ev.addPkgs ["b"] "/a",
                     Ev.publishing "a", Ev.storeWrite "a" "1.0.0"] },
        Outcome.ok ["b", "a"])) ∧
    ((publishDepthFirst envAB optsAB 3 [] manA "/a"
        { store := [], events := [] }).2 ≠ Outcome.fuel) ∧
    ((publishedNamesOf
        ({ store := [(("b", "1.0.0"), "sig-/a/node_modules/b"),
                     (("a", "1.0.0"), "sig-/a")],
           events := [Ev.addPkgs ["a"] "/a/node_modules/b", Ev.publishing "b",
                      Ev.storeWrite "b" "1.0.0", Ev.addPkgs ["b"] "/a",
                      Ev.publishing "a", Ev.storeWrite "a" "1.0.0"] } : St).events).Nodup ∧
     (["b", "a"] : List String).Perm (publishedNamesOf
        ({ store := [(("b", "1.0.0"), "sig-/a/node_modules/b"),
                     (("a", "1.0.0"), "sig-/a")],
           events := [Ev.addPkgs ["a"] "/a/node_modules/b", Ev.publishing "b",
                      Ev.storeWrite "b" "1.0.0", Ev.addPkgs ["b"] "/a",
                      Ev.publishing "a", Ev.storeWrite "a" "1.0.0"] } : St).events)) ∧
    publishedNamesOf (publishPackage envAB optsAB 3).1.events = ["b", "a"] := by
  obtain ⟨hA, hB, hC, _, _⟩ := c2_termination_once envAB optsAB manA "/a" 3 []
    { store := [(("b", "1.0.0"), "sig-/a/node_modules/b"),
                (("a", "1.0.0"), "sig-/a")],
      events := [Ev.addPkgs ["a"] "/a/node_modules/b", Ev.publishing "b",
                 Ev.storeWrite "b" "1.0.0", Ev.addPkgs ["b"] "/a",
                 Ev.publishing "a", Ev.storeWrite "a" "1.0.0"] } ["b", "a"]
    (by decide) (by decide)
  exact ⟨⟨by decide, by decide, by decide⟩, hA, hB (by decide), hC⟩

end Yalc



